import Mathlib

set_option maxRecDepth 8000

/-!
Shallow embedding of the secure-tempmail ingestion, encryption-at-rest and
TTL-lifecycle core (repository `secure-tempmail`, directory `src/app`).

Conventions of the embedding:
* bytes and characters are `Nat` (with `< 256` side conditions where byte
  width matters); strings of the host language are Lean `String`;
* fallible Python code is embedded in `Except Unit` / `Option`;
* the two stores (PostgreSQL via SQLAlchemy, Redis) are explicit state
  records, and each `commit` is one atomic state transition;
* external collaborators that are not part of the repository (the Fernet
  cipher of the `cryptography` package, Python's `base64` and UTF-8 codecs)
  are modelled from their documented behaviour, as noted on each definition.
-/

namespace TempMail

/-! ## Base64 (urlsafe) codec

Models Python's `base64.urlsafe_b64encode` / `base64.urlsafe_b64decode`
(used by `app/core/security.py`).  `urlsafe_b64decode` translates `-`/`_`
to `+`/`/` and calls the non-strict `binascii.a2b_base64`, which drops
characters outside the (standard plus urlsafe) alphabet, treats `=` in the
third or fourth position of a quad as terminating padding (ignoring the
remainder of the input), ignores the unused low bits of the final quad,
and rejects anything else. -/

/-- Value of one base64 character; accepts both the urlsafe and the
standard alphabet, as `urlsafe_b64decode` does after translation. -/
def b64Val (c : Nat) : Option Nat :=
  if 65 ≤ c ∧ c ≤ 90 then some (c - 65)        -- A..Z
  else if 97 ≤ c ∧ c ≤ 122 then some (c - 71)  -- a..z
  else if 48 ≤ c ∧ c ≤ 57 then some (c + 4)    -- 0..9
  else if c = 45 ∨ c = 43 then some 62         -- '-' or '+'
  else if c = 95 ∨ c = 47 then some 63         -- '_' or '/'
  else none

/-- Encoding character of a 6-bit value, urlsafe alphabet. -/
def b64Chr (v : Nat) : Nat :=
  if v < 26 then v + 65
  else if v < 52 then v + 71
  else if v < 62 then v - 4
  else if v = 62 then 45
  else 95

/-- The padding character `=`. -/
def b64Pad : Nat := 61

/-- `base64.urlsafe_b64encode` on a byte list. -/
def b64encode : List Nat → List Nat
  | a :: b :: c :: rest =>
      b64Chr (a / 4) :: b64Chr (a % 4 * 16 + b / 16) ::
      b64Chr (b % 16 * 4 + c / 64) :: b64Chr (c % 64) :: b64encode rest
  | [a, b] => [b64Chr (a / 4), b64Chr (a % 4 * 16 + b / 16), b64Chr (b % 16 * 4), b64Pad]
  | [a] => [b64Chr (a / 4), b64Chr (a % 4 * 16), b64Pad, b64Pad]
  | [] => []

/-- Quad-at-a-time worker of the decoder, run on the already filtered
character stream; `=` closing a quad terminates decoding and the rest of
the stream is ignored, exactly as `binascii.a2b_base64` does in
non-strict mode. -/
def b64decodeAux : List Nat → Option (List Nat)
  | [] => some []
  | c1 :: c2 :: c3 :: c4 :: rest =>
    match b64Val c1, b64Val c2 with
    | some v1, some v2 =>
      if c3 = b64Pad then
        if c4 = b64Pad then some [v1 * 4 + v2 / 16] else none
      else
        match b64Val c3 with
        | some v3 =>
          if c4 = b64Pad then some [v1 * 4 + v2 / 16, v2 % 16 * 16 + v3 / 4]
          else
            match b64Val c4 with
            | some v4 =>
              (b64decodeAux rest).map
                (fun t => (v1 * 4 + v2 / 16) :: (v2 % 16 * 16 + v3 / 4) :: (v3 % 4 * 64 + v4) :: t)
            | none => none
        | none => none
    | _, _ => none
  | _ => none

/-- `base64.urlsafe_b64decode`: drop foreign characters, then decode. -/
def b64decode (s : List Nat) : Option (List Nat) :=
  b64decodeAux (s.filter (fun c => (b64Val c).isSome || c = b64Pad))

/-! ## Fernet cipher model

`EncryptionService` (`app/core/security.py`) delegates to
`cryptography.fernet.Fernet`, which is not part of this repository.
Modelled from the spec's Crypto Vault contract (section 6): an
authenticated token scheme over an IV and a symmetric key whose decrypt
accepts exactly the genuinely produced tokens — `failing with
CryptoFailure on tampered or malformed ciphertext`.  Authentication
(HMAC-SHA256 in the real library) is modelled perfectly by binding a
keyed copy of the payload into the token; the length prefix is one byte,
so the model is byte-accurate for payloads shorter than 256 bytes. -/

/-- Token layout: length byte, IV byte, payload, then the authenticator
(key byte, IV byte, payload again). -/
def fernetToken (key iv : Nat) (p : List Nat) : List Nat :=
  (p.length % 256) :: (iv % 256) :: p ++ (key % 256) :: (iv % 256) :: p

/-- Verify and open a token: the shape, length byte, key byte, IV echo
and payload echo must all match (the echo comparison also forces the
token length to be exactly `2 * m + 4`). -/
def fernetOpen (key : Nat) (t : List Nat) : Option (List Nat) :=
  match t with
  | lenB :: ivB :: rest =>
    let m := (rest.length - 2) / 2
    if lenB = m % 256 ∧ rest.drop m = (key % 256) :: ivB :: rest.take m then
      some (rest.take m)
    else none
  | _ => none

/-! ## UTF-8 codec

Models Python's `str.encode('utf-8')`, `bytes.decode('utf-8')` (strict)
and `bytes.decode('utf-8', errors='replace')`, used by
`app/core/security.py` and `app/services/message_service.py`.  Python
follows the Unicode recommendation: an invalid lead byte is replaced by
one U+FFFD consuming one byte, and a valid lead whose continuation is
truncated or interrupted is replaced by one U+FFFD consuming the valid
prefix. -/

/-- A Unicode scalar value (what Python `str` code points are). -/
def isScalar (c : Nat) : Prop := c < 1114112 ∧ ¬(55296 ≤ c ∧ c ≤ 57343)

instance (c : Nat) : Decidable (isScalar c) := by unfold isScalar; infer_instance

/-- UTF-8 encoding of one scalar value. -/
def utf8EncodeChar (c : Nat) : List Nat :=
  if c < 128 then [c]
  else if c < 2048 then [192 + c / 64, 128 + c % 64]
  else if c < 65536 then [224 + c / 4096, 128 + c / 64 % 64, 128 + c % 64]
  else [240 + c / 262144, 128 + c / 4096 % 64, 128 + c / 64 % 64, 128 + c % 64]

/-- `str.encode('utf-8')`. -/
def utf8Encode (s : List Nat) : List Nat := (s.map utf8EncodeChar).flatten

/-- A UTF-8 continuation byte. -/
def isCont (b : Nat) : Bool := 128 ≤ b && b ≤ 191

/-- Valid range of the second byte, which depends on the lead byte
(excluding overlong forms, surrogates and code points above U+10FFFF). -/
def validB1 (b0 b1 : Nat) : Bool :=
  if b0 = 224 then 160 ≤ b1 && b1 ≤ 191
  else if b0 = 237 then 128 ≤ b1 && b1 ≤ 159
  else if b0 = 240 then 144 ≤ b1 && b1 ≤ 191
  else if b0 = 244 then 128 ≤ b1 && b1 ≤ 143
  else isCont b1

/-- One decoding step at byte `b0` with remainder `rest`: either a valid
sequence (code point and total bytes consumed) or an invalid one (bytes
consumed by the replace-mode decoder for its single U+FFFD). -/
inductive Utf8Step where
  | ok (c : Nat) (k : Nat)
  | bad (k : Nat)

/-- Classify the byte sequence starting at `b0`. -/
def utf8Step (b0 : Nat) (rest : List Nat) : Utf8Step :=
  if b0 < 128 then .ok b0 1
  else if 194 ≤ b0 ∧ b0 ≤ 223 then
    match rest with
    | b1 :: _ => if isCont b1 then .ok ((b0 - 192) * 64 + (b1 - 128)) 2 else .bad 1
    | [] => .bad 1
  else if 224 ≤ b0 ∧ b0 ≤ 239 then
    match rest with
    | b1 :: rest1 =>
      if validB1 b0 b1 then
        match rest1 with
        | b2 :: _ =>
          if isCont b2 then .ok ((b0 - 224) * 4096 + (b1 - 128) * 64 + (b2 - 128)) 3
          else .bad 2
        | [] => .bad 2
      else .bad 1
    | [] => .bad 1
  else if 240 ≤ b0 ∧ b0 ≤ 244 then
    match rest with
    | b1 :: rest1 =>
      if validB1 b0 b1 then
        match rest1 with
        | b2 :: rest2 =>
          if isCont b2 then
            match rest2 with
            | b3 :: _ =>
              if isCont b3 then
                .ok ((b0 - 240) * 262144 + (b1 - 128) * 4096 + (b2 - 128) * 64 + (b3 - 128)) 4
              else .bad 3
            | [] => .bad 3
          else .bad 2
        | [] => .bad 2
      else .bad 1
    | [] => .bad 1
  else .bad 1

/-- `bytes.decode('utf-8', errors='replace')`; U+FFFD is 65533. -/
def utf8DecodeReplace : List Nat → List Nat
  | [] => []
  | b0 :: rest =>
    match utf8Step b0 rest with
    | .ok c k => c :: utf8DecodeReplace (rest.drop (k - 1))
    | .bad k => 65533 :: utf8DecodeReplace (rest.drop (k - 1))
termination_by b => b.length
decreasing_by all_goals simp [List.length_drop]; omega

/-- `bytes.decode('utf-8')` (strict): `none` models `UnicodeDecodeError`. -/
def utf8DecodeStrict : List Nat → Option (List Nat)
  | [] => some []
  | b0 :: rest =>
    match utf8Step b0 rest with
    | .ok c k => (utf8DecodeStrict (rest.drop (k - 1))).map (c :: ·)
    | .bad _ => none
termination_by b => b.length
decreasing_by all_goals simp [List.length_drop]; omega

/-! ## EncryptionService (`app/core/security.py`, lines 110-153)

`encrypt` UTF-8-encodes the plaintext, produces a Fernet token and
base64-armours it; `decrypt` reverses the three layers.  Every exception
in either is caught and re-raised as `EncryptionException`, modelled by
`Except.error ()`.  Plaintext strings are code-point lists. -/

def EncryptionService.encrypt (key iv : Nat) (data : List Nat) : List Nat :=
  b64encode (fernetToken key iv (utf8Encode data))

def EncryptionService.decrypt (key : Nat) (s : List Nat) : Except Unit (List Nat) :=
  match b64decode s with
  | none => .error ()
  | some t =>
    match fernetOpen key t with
    | none => .error ()
    | some p =>
      match utf8DecodeStrict p with
      | none => .error ()
      | some cps => .ok cps

/-- Replace one character of a transmitted string: `s` with position `i`
set to `x`. -/
def corruptAt (s : List Nat) (i : Nat) (x : Nat) : List Nat := s.set i x

/-! ## Parsed email messages (`email.message.Message` values)

A message as produced by `BytesParser(policy=policy.default).parsebytes`
in `app/smtp/handler.py`: a tree of parts.  Per part we record the
observations the processor makes: headers, `get_content_type()` (already
normalised to lower case by the `email` package), `is_multipart()`,
`get_content()` (which may raise, e.g. for an unknown charset —
`Except.error`), `get_payload(decode=True)` (which yields `None` only
for multipart parts — `Option`), and `get_filename()`. -/

inductive EPart where
  | node (headers : List (String × String)) (ctype : String) (isMulti : Bool)
      (getContentE : Except Unit String) (payloadDec : Option (List Nat))
      (filenameO : Option String) (subparts : List EPart)

def EPart.headers : EPart → List (String × String) | .node h _ _ _ _ _ _ => h

def EPart.ctype : EPart → String | .node _ c _ _ _ _ _ => c

def EPart.isMulti : EPart → Bool | .node _ _ m _ _ _ _ => m

def EPart.getContentE : EPart → Except Unit String | .node _ _ _ g _ _ _ => g

def EPart.payloadDec : EPart → Option (List Nat) | .node _ _ _ _ p _ _ => p

def EPart.filenameO : EPart → Option String | .node _ _ _ _ _ f _ => f

def EPart.subparts : EPart → List EPart | .node _ _ _ _ _ _ s => s

/-- ASCII lower-casing of one character, modelling Python `str.lower`
on the ASCII header names and addresses this code compares. -/
def lowerChar (c : Char) : Char :=
  if 65 ≤ c.toNat ∧ c.toNat ≤ 90 then Char.ofNat (c.toNat + 32) else c

/-- `str.lower()` on ASCII strings. -/
def strLower (s : String) : String := String.mk (s.data.map lowerChar)

/-- `Message.get(name)`: case-insensitive header lookup, first match. -/
def getHeader (hs : List (String × String)) (name : String) : Option String :=
  (hs.find? (fun kv => strLower kv.1 == strLower name)).map (·.2)

def EPart.get (p : EPart) (name : String) : Option String := getHeader p.headers name

mutual

/-- `Message.walk()`: the part itself, then every subpart, depth first. -/
def EPart.walk : EPart → List EPart
  | .node h c m g p f subs => .node h c m g p f subs :: EPart.walkList subs

def EPart.walkList : List EPart → List EPart
  | [] => []
  | p :: ps => p.walk ++ EPart.walkList ps

end

/-- `get_content_maintype()`: the part of the content type before `/`. -/
def mainType (ct : String) : String := String.mk (ct.data.takeWhile (· ≠ '/'))

/-- A Lean string from decoded code points. -/
def strOfCodes (cs : List Nat) : String := String.mk (cs.map Char.ofNat)

/-- Code points of a Lean string. -/
def strCodes (s : String) : List Nat := s.data.map (·.toNat)

/-! ## EmailProcessor (`app/smtp/processor.py`) -/

/-- `_extract_subject` (lines 87-100): `message.get("Subject", "")`. -/
def extract_subject (m : EPart) : String := (m.get "Subject").getD ""

/-- The `common_headers` list of `_extract_headers` (lines 160-164). -/
def common_headers : List String :=
  ["From", "To", "Cc", "Bcc", "Subject", "Date",
   "Message-ID", "In-Reply-To", "References", "Return-Path", "Reply-To"]

/-- `_extract_headers` (lines 147-171): keep each listed header whose
value is truthy (present and non-empty). -/
def extract_headers (m : EPart) : List (String × String) :=
  common_headers.foldl (fun acc name =>
    match m.get name with
    | some v => if v ≠ "" then acc ++ [(name, v)] else acc
    | none => acc) []

/-- Body of one part: `part.get_content()` under `try`, falling back to
`part.get_payload(decode=True).decode('utf-8', errors='replace')` in the
bare `except`; if `get_payload(decode=True)` is `None` the fallback
itself raises (`AttributeError`), uncaught. -/
def partContent (p : EPart) : Except Unit String :=
  match p.getContentE with
  | .ok s => .ok s
  | .error _ =>
    match p.payloadDec with
    | some bs => .ok (strOfCodes (utf8DecodeReplace bs))
    | none => .error ()

/-- Python truthiness of the running `html_body`/`text_body` value:
`None` and `""` are falsy. -/
def truthyS : Option String → Bool
  | none => false
  | some s => s != ""

/-- The `for part in message.walk()` loop of `_extract_bodies`
(lines 116-130), with its `not text_body` / `not html_body` guards. -/
def bodiesFold : List EPart → Option String × Option String →
    Except Unit (Option String × Option String)
  | [], st => .ok st
  | p :: ps, (html, text) =>
    if p.ctype == "text/plain" && !truthyS text then
      match partContent p with
      | .ok s => bodiesFold ps (html, some s)
      | .error e => .error e
    else if p.ctype == "text/html" && !truthyS html then
      match partContent p with
      | .ok s => bodiesFold ps (some s, text)
      | .error e => .error e
    else bodiesFold ps (html, text)

/-- `_extract_bodies` (lines 102-145): returns `(html_body, text_body)`. -/
def extract_bodies (m : EPart) : Except Unit (Option String × Option String) :=
  if m.isMulti then bodiesFold m.walk (none, none)
  else if m.ctype == "text/plain" then (partContent m).map (fun s => (none, some s))
  else if m.ctype == "text/html" then (partContent m).map (fun s => (some s, none))
  else .ok (none, none)

/-- One extracted attachment: filename, content type, size, and the
base64-encoded content string. -/
structure AttachmentDict where
  filename : String
  content_type : String
  size : Nat
  content : List Nat
deriving Repr, DecidableEq

/-- `_extract_attachments` (lines 173-217): walk the parts, skip
multipart containers, parts without a `Content-Disposition` header,
parts without a (truthy) filename and parts with falsy decoded payload;
base64-encode the content.  Every fallible operation sits inside its
`try/except: continue`. -/
def extract_attachments (m : EPart) : List AttachmentDict :=
  if !m.isMulti then [] else
  m.walk.foldl (fun acc p =>
    if mainType p.ctype == "multipart" then acc
    else
      match p.get "Content-Disposition" with
      | none => acc
      | some _ =>
        match p.filenameO with
        | none => acc
        | some fn =>
          if fn == "" then acc
          else
            match p.payloadDec with
            | none => acc
            | some content =>
              if content == [] then acc
              else acc ++ [⟨fn, p.ctype, content.length, b64encode content⟩]) []

/-- Invariant of messages produced by `BytesParser.parsebytes`: a
`text/plain` or `text/html` part carries a decodable payload, so
`get_payload(decode=True)` is not `None` (the `email` package stores a
string payload for every parsed non-multipart part). -/
def wfParsed (m : EPart) : Prop :=
  ∀ p ∈ m.walk, (p.ctype = "text/plain" ∨ p.ctype = "text/html") → p.payloadDec.isSome

/-! ## Durable store, Redis, and the services
(`app/db/models.py`, `app/services/inbox_service.py`,
`app/services/message_service.py`) -/

structure InboxRow where
  id : Nat
  address : String
  expiresAt : Nat
  isActive : Bool
  messageCount : Nat
deriving Repr, DecidableEq

structure MessageRow where
  id : Nat
  inboxId : Nat
  fromAddress : String
  subject : String
  bodyHtmlEncrypted : Option (List Nat)
  bodyTextEncrypted : Option (List Nat)
  rawEmailEncrypted : List Nat
  sizeBytes : Nat
  hasAttachments : Bool
  headersJ : List (String × String)
deriving Repr, DecidableEq

structure AttachmentRow where
  id : Nat
  messageId : Nat
  filename : String
  contentType : String
  sizeBytes : Nat
  contentEncrypted : List Nat
deriving Repr, DecidableEq

/-- The durable relational store; each SQLAlchemy `commit` is one
transition of this state. -/
structure Store where
  inboxes : List InboxRow
  messages : List MessageRow
  attachments : List AttachmentRow
  nextId : Nat
deriving Repr, DecidableEq

/-- Redis: `inbox:<address> -> inbox id` and `inbox:id:<id> -> address`
entries in `kv`, `inbox:count:<address>` counters in `counters`;
`failing` makes every operation raise (connection failure). -/
structure RedisState where
  kv : List (String × Nat)
  counters : List (String × Nat)
  failing : Bool
deriving Repr, DecidableEq

def redisGet (r : RedisState) (k : String) : Except Unit (Option Nat) :=
  if r.failing then .error () else .ok ((r.kv.find? (·.1 == k)).map (·.2))

def redisGetCount (r : RedisState) (k : String) : Except Unit (Option Nat) :=
  if r.failing then .error () else .ok ((r.counters.find? (·.1 == k)).map (·.2))

def redisIncr (r : RedisState) (k : String) : Except Unit RedisState :=
  if r.failing then .error ()
  else if (r.counters.find? (·.1 == k)).isSome then
    .ok { r with counters := r.counters.map (fun kv => if kv.1 == k then (kv.1, kv.2 + 1) else kv) }
  else .ok { r with counters := r.counters ++ [(k, 1)] }

def redisDel (r : RedisState) (k : String) : Except Unit RedisState :=
  if r.failing then .error ()
  else .ok { r with kv := r.kv.filter (·.1 ≠ k), counters := r.counters.filter (·.1 ≠ k) }

/-- `InboxService.get_inbox` (lines 130-149): select by id, then treat an
expired inbox as absent. -/
def get_inbox (s : Store) (now : Nat) (inboxId : Nat) : Option InboxRow :=
  match s.inboxes.find? (fun ib => ib.id == inboxId) with
  | none => none
  | some ib => if ib.expiresAt < now then none else some ib

/-- `InboxService.get_inbox_by_address` (lines 151-176): Redis first
(an exception propagates — there is no `try` here), database fallback
only when the key is absent. -/
def get_inbox_by_address (s : Store) (r : RedisState) (now : Nat) (address : String) :
    Except Unit (Option InboxRow) :=
  match redisGet r ("inbox:" ++ address) with
  | .error e => .error e
  | .ok (some inboxId) => .ok (get_inbox s now inboxId)
  | .ok none =>
    match s.inboxes.find? (fun ib => ib.address == address) with
    | none => .ok none
    | some ib => .ok (if ib.expiresAt < now then none else some ib)

/-- `InboxService.increment_message_count` (lines 232-254): load the
inbox (raising if absent or expired), add one — unconditionally, with no
quota comparison — commit, then bump the Redis counter (which raises
after the durable commit if Redis fails).  Returns the call's outcome
together with the durable store and Redis state left behind. -/
def increment_message_count (s : Store) (r : RedisState) (now : Nat) (inboxId : Nat) :
    Except Unit Nat × Store × RedisState :=
  match get_inbox s now inboxId with
  | none => (.error (), s, r)
  | some ib =>
    let s2 : Store := { s with inboxes := (s.inboxes.map
      (fun x => if x.id == inboxId then { x with messageCount := x.messageCount + 1 } else x)) }
    match redisIncr r ("inbox:count:" ++ ib.address) with
    | .ok r2 => (.ok (ib.messageCount + 1), s2, r2)
    | .error _ => (.error (), s2, r)

/-- `MessageService.store_message` (lines 304-386): sanitize and encrypt
the truthy bodies, encrypt `raw_email.decode('utf-8', errors='replace')`,
build the `Message` row and its `Attachment` rows, and commit them all in
one transaction.  `sanitize` is the external sanitization collaborator;
`key`/`iv` feed the cipher model.  Returns the committed store and the
new message id. -/
def store_message (sanitize : String → String) (key iv : Nat) (s : Store)
    (inboxId : Nat) (fromAddress subject : String)
    (bodyHtml bodyText : Option String) (rawEmail : List Nat)
    (headers : List (String × String)) (attachments : List AttachmentDict) :
    Store × Nat :=
  let bodyHtmlEnc : Option (List Nat) :=
    match bodyHtml with
    | some h => if h ≠ "" then
        some (EncryptionService.encrypt key iv (strCodes (sanitize h))) else none
    | none => none
  let bodyTextEnc : Option (List Nat) :=
    match bodyText with
    | some t => if t ≠ "" then
        some (EncryptionService.encrypt key iv (strCodes t)) else none
    | none => none
  let rawEnc := EncryptionService.encrypt key iv (utf8DecodeReplace rawEmail)
  let mid := s.nextId
  let msg : MessageRow :=
    { id := mid, inboxId := inboxId, fromAddress := fromAddress.take 255,
      subject := subject.take 998, bodyHtmlEncrypted := bodyHtmlEnc,
      bodyTextEncrypted := bodyTextEnc, rawEmailEncrypted := rawEnc,
      sizeBytes := rawEmail.length, hasAttachments := attachments ≠ [],
      headersJ := headers }
  let rows := attachments.enum.map (fun ai =>
    ({ id := mid + 1 + ai.1, messageId := mid, filename := ai.2.filename.take 255,
       contentType := ai.2.content_type.take 255, sizeBytes := ai.2.size,
       contentEncrypted := EncryptionService.encrypt key iv ai.2.content } : AttachmentRow))
  ({ s with
     messages := s.messages ++ [msg]
     attachments := s.attachments ++ rows
     nextId := mid + 1 + attachments.length }, mid)

/-- `EmailProcessor.process_message` (lines 36-85): Redis lookup of the
inbox id, extraction, then `store_message` (first durable commit)
followed by `increment_message_count` (second durable commit).  Returns
the outcome and the durable store and Redis state actually left behind —
on a failure inside the increment, the message committed by
`store_message` stays. -/
def process_message (sanitize : String → String) (key iv : Nat)
    (s : Store) (r : RedisState) (recipient sender : String) (m : EPart)
    (rawContent : List Nat) (now : Nat) :
    Except Unit Unit × Store × RedisState :=
  match redisGet r ("inbox:" ++ recipient) with
  | .error _ => (.error (), s, r)
  | .ok none => (.error (), s, r)
  | .ok (some inboxId) =>
    match extract_bodies m with
    | .error _ => (.error (), s, r)
    | .ok (bodyHtml, bodyText) =>
      let subject := extract_subject m
      let headers := extract_headers m
      let atts := extract_attachments m
      let (s2, _) := store_message sanitize key iv s inboxId sender subject
        bodyHtml bodyText rawContent headers atts
      let (res, s3, r3) := increment_message_count s2 r now inboxId
      (res.map (fun _ => ()), s3, r3)

/-! ## Settings (`app/config.py`) and the SMTP handler
(`app/smtp/handler.py`) -/

structure Settings where
  MAX_EMAILS_PER_INBOX : Nat := 50
  MAX_EMAIL_SIZE_MB : Nat := 10
  CLEANUP_BATCH_SIZE : Nat := 100
deriving Repr, DecidableEq

/-- `Settings.max_email_size_bytes` (config.py lines 215-218). -/
def Settings.max_email_size_bytes (st : Settings) : Nat :=
  st.MAX_EMAIL_SIZE_MB * 1024 * 1024

/-- `TempMailHandler._validate_recipient` (handler.py lines 121-136):
`try: return redis.get(...) is not None; except: return False`. -/
def validate_recipient (r : RedisState) (recipient : String) : Bool :=
  match redisGet r ("inbox:" ++ recipient) with
  | .error _ => false
  | .ok v => v.isSome

/-- `TempMailHandler._check_inbox_quota` (handler.py lines 138-155):
missing counter or Redis error both allow. -/
def check_inbox_quota (st : Settings) (r : RedisState) (recipient : String) : Bool :=
  match redisGetCount r ("inbox:count:" ++ recipient) with
  | .error _ => true
  | .ok none => true
  | .ok (some n) => n < st.MAX_EMAILS_PER_INBOX

/-- `TempMailHandler.handle_DATA` (handler.py lines 42-119).  The checks
run in source order: recipients, recipient validity, quota, size, parse,
process.  `parsed` is the outcome of `BytesParser.parsebytes`
(`none` = parse error); the size check happens before the parse result
is ever consulted. -/
def handle_DATA (st : Settings) (sanitize : String → String) (key iv : Nat)
    (s : Store) (r : RedisState) (mailFrom : String) (rcptTos : List String)
    (content : List Nat) (parsed : Option EPart) (now : Nat) :
    String × Store × RedisState :=
  if rcptTos = [] then ("554 No valid recipients", s, r)
  else
    let recipient := strLower (rcptTos.headD "")
    if !validate_recipient r recipient then ("550 Recipient not found or expired", s, r)
    else if !check_inbox_quota st r recipient then ("552 Inbox quota exceeded", s, r)
    else if content.length > st.max_email_size_bytes then
      ("552 Message size exceeds maximum", s, r)
    else
      match parsed with
      | none => ("451 Error parsing message", s, r)
      | some m =>
        match process_message sanitize key iv s r recipient mailFrom m content now with
        | (.error _, s2, r2) => ("451 Requested action aborted: error in processing", s2, r2)
        | (.ok _, s2, r2) => ("250 Message accepted for delivery", s2, r2)

/-! ## TTL cleanup worker (`app/workers/ttl_cleanup.py`) -/

/-- The three Fast Index keys the worker deletes for an inbox
(ttl_cleanup.py lines 297-300). -/
def inboxRedisKeys (ib : InboxRow) : List String :=
  ["inbox:" ++ ib.address, "inbox:id:" ++ toString ib.id, "inbox:count:" ++ ib.address]

/-- Cascade deletion of an inbox row (models.py: `Message.inbox_id
ondelete=CASCADE`, `Inbox.messages cascade="all, delete-orphan"`,
`Message.attachments cascade="all, delete-orphan"`). -/
def delete_inbox_cascade (s : Store) (inboxId : Nat) : Store :=
  { s with
    inboxes := s.inboxes.filter (fun ib => ib.id ≠ inboxId),
    messages := s.messages.filter (fun m => m.inboxId ≠ inboxId),
    attachments := s.attachments.filter (fun a =>
      ¬ s.messages.any (fun m => m.id == a.messageId && m.inboxId == inboxId)) }

/-- Best-effort deletion of the three Redis keys of one inbox
(the inner `try` of `_run_cleanup`); on a Redis failure the keys stay. -/
def redisDelInboxKeys (r : RedisState) (ib : InboxRow) : RedisState :=
  { r with
    kv := r.kv.filter (fun kv => kv.1 ∉ inboxRedisKeys ib)
    counters := r.counters.filter (fun kv => kv.1 ∉ inboxRedisKeys ib) }

/-- The per-inbox body of `_run_cleanup`'s loop (lines 287-321): count
messages, best-effort delete the Redis keys, delete the inbox with
cascade; `dbFail`/`redisFail` say per inbox id whether the database
delete or the Redis delete raises.  A raising database delete skips the
remaining per-inbox work (`except: continue`) but never the loop. -/
def cleanup_step (dbFail redisFail : Nat → Bool)
    (acc : Store × RedisState × Nat × Nat) (ib : InboxRow) :
    Store × RedisState × Nat × Nat :=
  let (s0, r0, nIb, nMsg) := acc
  let msgCount := (s0.messages.filter (fun m => m.inboxId == ib.id)).length
  let r1 := if redisFail ib.id then r0 else redisDelInboxKeys r0 ib
  if dbFail ib.id then (s0, r1, nIb, nMsg)
  else (delete_inbox_cascade s0 ib.id, r1, nIb + 1, nMsg + msgCount)

/-- `TTLCleanupWorker._run_cleanup` (lines 257-340): select up to
`batchSize` inboxes whose `expires_at` has passed, process each,
commit.  Returns the final stores and the
`(inboxes_deleted, messages_deleted)` counters. -/
def run_cleanup (s : Store) (r : RedisState) (now : Nat) (batchSize : Nat)
    (dbFail redisFail : Nat → Bool) : Store × RedisState × Nat × Nat :=
  let expired := (s.inboxes.filter (fun ib => ib.expiresAt < now)).take batchSize
  expired.foldl (cleanup_step dbFail redisFail) (s, r, 0, 0)

deriving instance DecidableEq for Except

/-! ## Concrete fixtures used by counterexamples and witnesses -/

/-- An inbox sitting exactly at the default quota of 50. -/
def inboxA : InboxRow :=
  { id := 1, address := "a@x", expiresAt := 100, isActive := true, messageCount := 50 }

def storeA : Store := { inboxes := [inboxA], messages := [], attachments := [], nextId := 10 }

def redisA : RedisState := { kv := [("inbox:a@x", 1)], counters := [], failing := false }

def redisFailingA : RedisState := { kv := [("inbox:a@x", 1)], counters := [], failing := true }

def partPlainA : EPart :=
  .node [("Subject", "hi"), ("Bcc", "x@y")] "text/plain" false (.ok "hello")
    (some [104, 105]) none []

/-- A `text/plain` part whose decoded content is the empty string. -/
def partEmptyText : EPart := .node [] "text/plain" false (.ok "") (some []) none []

def partHelloText : EPart := .node [] "text/plain" false (.ok "hello") (some [104]) none []

/-- A multipart message whose first `text/plain` part is empty and whose
second one is not. -/
def multiTwoPlain : EPart :=
  .node [] "multipart/mixed" true (.error ()) none none [partEmptyText, partHelloText]

/-- A malformed part: `get_content()` raises, the raw payload is not
valid UTF-8. -/
def partMalformed : EPart := .node [] "text/plain" false (.error ()) (some [255, 65]) none []

/-- Modelled from the spec: the header allow-list of section 4.2, which
names ten fields — `From, To, Cc, Subject, Date, Message-ID,
In-Reply-To, References, Return-Path, Reply-To` — for comparison with
the code's `common_headers`. -/
def specHeaderAllowList : List String :=
  ["From", "To", "Cc", "Subject", "Date",
   "Message-ID", "In-Reply-To", "References", "Return-Path", "Reply-To"]





/-- Two byte lists agree outside one aligned 3-byte chunk (chunk `j`
covers positions `3*j .. 3*j+2`): the shape in which a single corrupted
base64 character can change the decoded bytes in place. -/
def agreeOutside3 (T Tp : List Nat) (j : Nat) : Prop :=
  ∀ q, q < T.length → (q < 3 * j ∨ 3 * j + 3 ≤ q) → Tp.getD q 0 = T.getD q 0


end TempMail

namespace TempMail

/-! # Theorems -/

/-! ## Base64 / Fernet / UTF-8 round trips (shared helper lemmas) -/

theorem b64Val_b64Chr {v : Nat} (h : v < 64) : b64Val (b64Chr v) = some v := by
  unfold b64Chr b64Val
  interval_cases v <;> rfl

theorem b64Chr_ne_pad {v : Nat} (h : v < 64) : b64Chr v ≠ b64Pad := by
  unfold b64Chr b64Pad
  interval_cases v <;> decide

theorem b64Chr_valid {v : Nat} (h : v < 64) :
    ((b64Val (b64Chr v)).isSome || b64Chr v = b64Pad) = true := by
  rw [b64Val_b64Chr h]; rfl

theorem b64encode_all_valid {T : List Nat} (h : ∀ b ∈ T, b < 256) :
    ∀ c ∈ b64encode T, ((b64Val c).isSome || c = b64Pad) = true := by
  induction T using b64encode.induct with
  | case1 a b c rest ih =>
    have ha : a < 256 := h a (by simp)
    have hb : b < 256 := h b (by simp)
    have hc : c < 256 := h c (by simp)
    intro x hx
    simp only [b64encode, List.mem_cons] at hx
    rcases hx with rfl | rfl | rfl | rfl | hx
    · exact b64Chr_valid (by omega)
    · exact b64Chr_valid (by omega)
    · exact b64Chr_valid (by omega)
    · exact b64Chr_valid (by omega)
    · exact ih (fun y hy => h y (by simp [hy])) x hx
  | case2 a b =>
    have ha : a < 256 := h a (by simp)
    have hb : b < 256 := h b (by simp)
    intro x hx
    simp only [b64encode, List.mem_cons] at hx
    rcases hx with rfl | rfl | rfl | rfl | hx
    · exact b64Chr_valid (by omega)
    · exact b64Chr_valid (by omega)
    · exact b64Chr_valid (by omega)
    · simp
    · simp at hx
  | case3 a =>
    have ha : a < 256 := h a (by simp)
    intro x hx
    simp only [b64encode, List.mem_cons] at hx
    rcases hx with rfl | rfl | rfl | rfl | hx
    · exact b64Chr_valid (by omega)
    · exact b64Chr_valid (by omega)
    · simp
    · simp
    · simp at hx
  | case4 => intro x hx; simp [b64encode] at hx

theorem b64decodeAux_encode {T : List Nat} (h : ∀ b ∈ T, b < 256) :
    b64decodeAux (b64encode T) = some T := by
  induction T using b64encode.induct with
  | case1 a b c rest ih =>
    have ha : a < 256 := h a (by simp)
    have hb : b < 256 := h b (by simp)
    have hc : c < 256 := h c (by simp)
    have h1 := b64Val_b64Chr (show a / 4 < 64 by omega)
    have h2 := b64Val_b64Chr (show a % 4 * 16 + b / 16 < 64 by omega)
    have h3 := b64Val_b64Chr (show b % 16 * 4 + c / 64 < 64 by omega)
    have h4 := b64Val_b64Chr (show c % 64 < 64 by omega)
    have n3 := b64Chr_ne_pad (show b % 16 * 4 + c / 64 < 64 by omega)
    have n4 := b64Chr_ne_pad (show c % 64 < 64 by omega)
    have hrest := ih (fun y hy => h y (by simp [hy]))
    simp only [b64encode, b64decodeAux, h1, h2, h3, h4, n3, n4, if_false, hrest]
    have e1 : a / 4 * 4 + (a % 4 * 16 + b / 16) / 16 = a := by omega
    have e2 : (a % 4 * 16 + b / 16) % 16 * 16 + (b % 16 * 4 + c / 64) / 4 = b := by omega
    have e3 : (b % 16 * 4 + c / 64) % 4 * 64 + c % 64 = c := by omega
    rw [e1, e2, e3]; rfl
  | case2 a b =>
    have ha : a < 256 := h a (by simp)
    have hb : b < 256 := h b (by simp)
    have h1 := b64Val_b64Chr (show a / 4 < 64 by omega)
    have h2 := b64Val_b64Chr (show a % 4 * 16 + b / 16 < 64 by omega)
    have h3 := b64Val_b64Chr (show b % 16 * 4 < 64 by omega)
    have n3 := b64Chr_ne_pad (show b % 16 * 4 < 64 by omega)
    simp only [b64encode, b64decodeAux, h1, h2, h3, n3, if_false, if_true, eq_self_iff_true]
    have e1 : a / 4 * 4 + (a % 4 * 16 + b / 16) / 16 = a := by omega
    have e2 : (a % 4 * 16 + b / 16) % 16 * 16 + b % 16 * 4 / 4 = b := by omega
    rw [e1, e2]
  | case3 a =>
    have ha : a < 256 := h a (by simp)
    have h1 := b64Val_b64Chr (show a / 4 < 64 by omega)
    have h2 := b64Val_b64Chr (show a % 4 * 16 < 64 by omega)
    simp only [b64encode, b64decodeAux, h1, h2, if_true, eq_self_iff_true]
    have e1 : a / 4 * 4 + a % 4 * 16 / 16 = a := by omega
    rw [e1]
  | case4 => rfl

theorem b64decode_encode {T : List Nat} (h : ∀ b ∈ T, b < 256) :
    b64decode (b64encode T) = some T := by
  unfold b64decode
  rw [List.filter_eq_self.mpr (by intro c hc; exact b64encode_all_valid h c hc)]
  exact b64decodeAux_encode h

theorem fernetToken_length (key iv : Nat) (p : List Nat) :
    (fernetToken key iv p).length = 2 * p.length + 4 := by
  simp [fernetToken]; omega

theorem fernetOpen_fernetToken (key iv : Nat) (p : List Nat) :
    fernetOpen key (fernetToken key iv p) = some p := by
  show fernetOpen key ((p.length % 256) :: (iv % 256) :: (p ++ (key % 256) :: (iv % 256) :: p))
      = some p
  unfold fernetOpen
  have hlen : (p ++ (key % 256) :: (iv % 256) :: p).length = 2 * p.length + 2 := by
    simp; omega
  have hm : ((p ++ (key % 256) :: (iv % 256) :: p).length - 2) / 2 = p.length := by
    rw [hlen]; omega
  simp only [hm]
  rw [List.take_left' rfl, List.drop_left' rfl]
  simp

theorem fernetToken_bytes {key iv : Nat} {p : List Nat} (h : ∀ b ∈ p, b < 256) :
    ∀ b ∈ fernetToken key iv p, b < 256 := by
  intro b hb
  unfold fernetToken at hb
  simp only [List.cons_append, List.mem_cons, List.mem_append] at hb
  rcases hb with rfl | rfl | hb | rfl | rfl | hb
  · omega
  · omega
  · exact h b hb
  · omega
  · omega
  · exact h b hb

theorem utf8Step_encode {c : Nat} (hc : isScalar c) (tail : List Nat) :
    ∃ b0 bs, utf8EncodeChar c = b0 :: bs ∧
      utf8Step b0 (bs ++ tail) = .ok c (bs.length + 1) := by
  obtain ⟨hlt, hsur⟩ := hc
  by_cases h1 : c < 128
  · refine ⟨c, [], by rw [utf8EncodeChar, if_pos h1], ?_⟩
    unfold utf8Step
    rw [if_pos h1]
    rfl
  · by_cases h2 : c < 2048
    · refine ⟨192 + c / 64, [128 + c % 64], ?_, ?_⟩
      · rw [utf8EncodeChar, if_neg h1, if_pos h2]
      · have hcont : isCont (128 + c % 64) = true := by unfold isCont; simp; omega
        unfold utf8Step
        rw [if_neg (by omega), if_pos (by omega)]
        dsimp only [List.cons_append, List.nil_append]
        rw [if_pos hcont]
        congr 1
        omega
    · by_cases h3 : c < 65536
      · refine ⟨224 + c / 4096, [128 + c / 64 % 64, 128 + c % 64], ?_, ?_⟩
        · rw [utf8EncodeChar, if_neg h1, if_neg h2, if_pos h3]
        · have hv : validB1 (224 + c / 4096) (128 + c / 64 % 64) = true := by
            unfold validB1 isCont
            split_ifs <;> simp <;> omega
          have hcont : isCont (128 + c % 64) = true := by unfold isCont; simp; omega
          unfold utf8Step
          rw [if_neg (by omega), if_neg (by omega), if_pos (by omega)]
          dsimp only [List.cons_append, List.nil_append]
          rw [if_pos hv, if_pos hcont]
          congr 1
          omega
      · refine ⟨240 + c / 262144,
          [128 + c / 4096 % 64, 128 + c / 64 % 64, 128 + c % 64], ?_, ?_⟩
        · rw [utf8EncodeChar, if_neg h1, if_neg h2, if_neg h3]
        · have hv : validB1 (240 + c / 262144) (128 + c / 4096 % 64) = true := by
            unfold validB1 isCont
            split_ifs <;> simp <;> omega
          have hc2 : isCont (128 + c / 64 % 64) = true := by unfold isCont; simp; omega
          have hc3 : isCont (128 + c % 64) = true := by unfold isCont; simp; omega
          unfold utf8Step
          rw [if_neg (by omega), if_neg (by omega), if_neg (by omega), if_pos (by omega)]
          dsimp only [List.cons_append, List.nil_append]
          rw [if_pos hv, if_pos hc2, if_pos hc3]
          congr 1
          omega

theorem utf8DecodeStrict_encode {s : List Nat} (h : ∀ c ∈ s, isScalar c) :
    utf8DecodeStrict (utf8Encode s) = some s := by
  induction s with
  | nil => simp [utf8Encode, utf8DecodeStrict]
  | cons c s ih =>
    obtain ⟨b0, bs, he, hs⟩ := utf8Step_encode (h c (by simp)) (utf8Encode s)
    have hflat : utf8Encode (c :: s) = b0 :: (bs ++ utf8Encode s) := by
      simp [utf8Encode] at *
      rw [he]
      simp
    rw [hflat, utf8DecodeStrict, hs]
    simp only [Nat.add_sub_cancel, List.drop_left' rfl]
    rw [ih (fun x hx => h x (by simp [hx]))]
    rfl

theorem utf8Step_ok_inv {b0 : Nat} {rest : List Nat} {c k : Nat}
    (h : utf8Step b0 rest = .ok c k) :
    isScalar c ∧ utf8EncodeChar c = b0 :: rest.take (k - 1) ∧ k - 1 ≤ rest.length := by
  unfold utf8Step at h
  split at h
  · rename_i h1
    cases h
    refine ⟨⟨by omega, by omega⟩, ?_, by simp⟩
    rw [utf8EncodeChar, if_pos h1]
    simp
  · rename_i h1
    split at h
    · rename_i h2
      split at h
      · rename_i b1 t
        split at h
        · rename_i hco
          cases h
          have hb1 : 128 ≤ b1 ∧ b1 ≤ 191 := by unfold isCont at hco; simp at hco; omega
          refine ⟨⟨by omega, by omega⟩, ?_, by simp⟩
          rw [utf8EncodeChar, if_neg (by omega), if_pos (by omega)]
          have e0 : 192 + ((b0 - 192) * 64 + (b1 - 128)) / 64 = b0 := by omega
          have e1 : 128 + ((b0 - 192) * 64 + (b1 - 128)) % 64 = b1 := by omega
          rw [e0, e1]
          simp
        · exact absurd h (by simp)
      · exact absurd h (by simp)
    · rename_i h2
      split at h
      · rename_i h3
        split at h
        · rename_i b1 t1
          split at h
          · rename_i hv
            split at h
            · rename_i b2 t2
              split at h
              · rename_i hco
                cases h
                have hb2 : 128 ≤ b2 ∧ b2 ≤ 191 := by
                  unfold isCont at hco; simp at hco; omega
                have hb1 : 128 ≤ b1 ∧ b1 ≤ 191 ∧
                    (b0 = 224 → 160 ≤ b1) ∧ (b0 = 237 → b1 ≤ 159) := by
                  unfold validB1 isCont at hv
                  split_ifs at hv <;> simp at hv <;> omega
                refine ⟨⟨by omega, by omega⟩, ?_, by simp⟩
                rw [utf8EncodeChar, if_neg (by omega), if_neg (by omega), if_pos (by omega)]
                have e0 : 224 + ((b0 - 224) * 4096 + (b1 - 128) * 64 + (b2 - 128)) / 4096
                    = b0 := by omega
                have e1 : 128 + ((b0 - 224) * 4096 + (b1 - 128) * 64 + (b2 - 128)) / 64 % 64
                    = b1 := by omega
                have e2 : 128 + ((b0 - 224) * 4096 + (b1 - 128) * 64 + (b2 - 128)) % 64
                    = b2 := by omega
                rw [e0, e1, e2]
                simp
              · exact absurd h (by simp)
            · exact absurd h (by simp)
          · exact absurd h (by simp)
        · exact absurd h (by simp)
      · rename_i h3
        split at h
        · rename_i h4
          split at h
          · rename_i b1 t1
            split at h
            · rename_i hv
              split at h
              · rename_i b2 t2
                split at h
                · rename_i hc2
                  split at h
                  · rename_i b3 t3
                    split at h
                    · rename_i hc3
                      cases h
                      have hb2 : 128 ≤ b2 ∧ b2 ≤ 191 := by
                        unfold isCont at hc2; simp at hc2; omega
                      have hb3 : 128 ≤ b3 ∧ b3 ≤ 191 := by
                        unfold isCont at hc3; simp at hc3; omega
                      have hb1 : 128 ≤ b1 ∧ b1 ≤ 191 ∧
                          (b0 = 240 → 144 ≤ b1) ∧ (b0 = 244 → b1 ≤ 143) := by
                        unfold validB1 isCont at hv
                        split_ifs at hv <;> simp at hv <;> omega
                      refine ⟨⟨by omega, by omega⟩, ?_, by simp⟩
                      rw [utf8EncodeChar, if_neg (by omega), if_neg (by omega),
                        if_neg (by omega)]
                      have e0 : 240 + ((b0 - 240) * 262144 + (b1 - 128) * 4096 +
                          (b2 - 128) * 64 + (b3 - 128)) / 262144 = b0 := by omega
                      have e1 : 128 + ((b0 - 240) * 262144 + (b1 - 128) * 4096 +
                          (b2 - 128) * 64 + (b3 - 128)) / 4096 % 64 = b1 := by omega
                      have e2 : 128 + ((b0 - 240) * 262144 + (b1 - 128) * 4096 +
                          (b2 - 128) * 64 + (b3 - 128)) / 64 % 64 = b2 := by omega
                      have e3 : 128 + ((b0 - 240) * 262144 + (b1 - 128) * 4096 +
                          (b2 - 128) * 64 + (b3 - 128)) % 64 = b3 := by omega
                      rw [e0, e1, e2, e3]
                      simp
                    · exact absurd h (by simp)
                  · exact absurd h (by simp)
                · exact absurd h (by simp)
              · exact absurd h (by simp)
            · exact absurd h (by simp)
          · exact absurd h (by simp)
        · exact absurd h (by simp)

theorem utf8DecodeStrict_some {b cps : List Nat} (h : utf8DecodeStrict b = some cps) :
    utf8Encode cps = b ∧ ∀ c ∈ cps, isScalar c := by
  induction b using utf8DecodeStrict.induct generalizing cps with
  | case1 =>
    simp only [utf8DecodeStrict] at h
    cases h
    exact ⟨rfl, by simp⟩
  | case2 b0 rest c k hstep ih =>
    rw [utf8DecodeStrict, hstep] at h
    dsimp only at h
    cases hrec : utf8DecodeStrict (rest.drop (k - 1)) with
    | none => rw [hrec] at h; simp at h
    | some cps2 =>
      rw [hrec] at h
      simp only [Option.map_some'] at h
      cases h
      obtain ⟨he, hsc⟩ := ih hrec
      obtain ⟨hscalar, henc, hle⟩ := utf8Step_ok_inv hstep
      constructor
      · show utf8Encode (c :: cps2) = b0 :: rest
        have hfl : utf8Encode (c :: cps2) = utf8EncodeChar c ++ utf8Encode cps2 := by
          simp [utf8Encode]
        rw [hfl, henc, he]
        simp [List.take_append_drop]
      · intro x hx
        rcases List.mem_cons.mp hx with rfl | hx
        · exact hscalar
        · exact hsc x hx
  | case3 b0 rest k hstep =>
    rw [utf8DecodeStrict, hstep] at h
    simp at h

theorem utf8DecodeReplace_of_strict {b cps : List Nat}
    (h : utf8DecodeStrict b = some cps) : utf8DecodeReplace b = cps := by
  induction b using utf8DecodeStrict.induct generalizing cps with
  | case1 =>
    simp only [utf8DecodeStrict] at h
    cases h
    simp [utf8DecodeReplace]
  | case2 b0 rest c k hstep ih =>
    rw [utf8DecodeStrict, hstep] at h
    dsimp only at h
    cases hrec : utf8DecodeStrict (rest.drop (k - 1)) with
    | none => rw [hrec] at h; simp at h
    | some cps2 =>
      rw [hrec] at h
      simp only [Option.map_some'] at h
      cases h
      rw [utf8DecodeReplace, hstep]
      dsimp only
      rw [ih hrec]
  | case3 b0 rest k hstep =>
    rw [utf8DecodeStrict, hstep] at h
    simp at h

theorem utf8DecodeReplace_scalar (b : List Nat) :
    ∀ c ∈ utf8DecodeReplace b, isScalar c := by
  induction b using utf8DecodeReplace.induct with
  | case1 => simp [utf8DecodeReplace]
  | case2 b0 rest c k hstep ih =>
    rw [utf8DecodeReplace, hstep]
    intro x hx
    rcases List.mem_cons.mp hx with rfl | hx
    · exact (utf8Step_ok_inv hstep).1
    · exact ih x hx
  | case3 b0 rest k hstep ih =>
    rw [utf8DecodeReplace, hstep]
    intro x hx
    rcases List.mem_cons.mp hx with rfl | hx
    · exact ⟨by omega, by omega⟩
    · exact ih x hx

theorem utf8Encode_bytes {s : List Nat} (h : ∀ c ∈ s, isScalar c) :
    ∀ b ∈ utf8Encode s, b < 256 := by
  intro b hb
  simp only [utf8Encode, List.mem_flatten, List.mem_map] at hb
  obtain ⟨l, ⟨c, hc, rfl⟩, hbl⟩ := hb
  obtain ⟨hlt, _⟩ := h c hc
  unfold utf8EncodeChar at hbl
  split_ifs at hbl <;> simp at hbl <;> omega


/-! ## EncryptionService round trip -/

theorem encrypt_decrypt_roundtrip (key iv : Nat) {data : List Nat}
    (h : ∀ c ∈ data, isScalar c) :
    EncryptionService.decrypt key (EncryptionService.encrypt key iv data) = .ok data := by
  unfold EncryptionService.encrypt EncryptionService.decrypt
  rw [b64decode_encode (fernetToken_bytes (utf8Encode_bytes h))]
  dsimp only
  rw [fernetOpen_fernetToken]
  dsimp only
  rw [utf8DecodeStrict_encode h]

/-- C10: the persisted encrypted raw email is the encryption of
`raw_email.decode('utf-8', errors='replace')`, not of the raw bytes; the
stored field decrypts back to exactly that replaced text, and re-encoding
that text reproduces the original raw bytes if and only if they were
valid UTF-8 — so the stored raw copy is lossy precisely for non-UTF-8
mail. -/
theorem c10_raw_copy_lossy_iff_invalid_utf8 (sanitize : String → String)
    (key iv : Nat) (s : Store) (inboxId : Nat) (fa su : String)
    (bh bt : Option String) (raw : List Nat) (hdrs : List (String × String))
    (atts : List AttachmentDict) :
    ((store_message sanitize key iv s inboxId fa su bh bt raw hdrs atts).1.messages.getLast?).map
        (·.rawEmailEncrypted) =
      some (EncryptionService.encrypt key iv (utf8DecodeReplace raw)) ∧
    EncryptionService.decrypt key (EncryptionService.encrypt key iv (utf8DecodeReplace raw)) =
      .ok (utf8DecodeReplace raw) ∧
    (utf8Encode (utf8DecodeReplace raw) = raw ↔ (utf8DecodeStrict raw).isSome = true) := by
  refine ⟨?_, ?_, ?_, ?_⟩
  · simp [store_message]
  · exact encrypt_decrypt_roundtrip key iv (utf8DecodeReplace_scalar raw)
  · intro he
    have hstr := utf8DecodeStrict_encode (utf8DecodeReplace_scalar raw)
    rw [he] at hstr
    rw [hstr]
    rfl
  · intro hv
    obtain ⟨cps, hcps⟩ := Option.isSome_iff_exists.mp hv
    rw [utf8DecodeReplace_of_strict hcps]
    exact (utf8DecodeStrict_some hcps).1

/-! ## Email processor: totality, first-match policy, header allow-list -/

theorem partContent_ok_of_payload {p : EPart} (h : p.payloadDec.isSome) :
    ∃ s, partContent p = .ok s := by
  unfold partContent
  cases hg : p.getContentE with
  | ok s => exact ⟨s, rfl⟩
  | error e =>
    cases hp : p.payloadDec with
    | some bs => exact ⟨_, rfl⟩
    | none => rw [hp] at h; simp at h

theorem bodiesFold_ok {ps : List EPart}
    (h : ∀ p ∈ ps, (p.ctype = "text/plain" ∨ p.ctype = "text/html") → p.payloadDec.isSome)
    (st : Option String × Option String) :
    ∃ res, bodiesFold ps st = .ok res := by
  induction ps generalizing st with
  | nil => exact ⟨st, rfl⟩
  | cons p ps ih =>
    obtain ⟨html, text⟩ := st
    rw [bodiesFold]
    have hsub : ∀ q ∈ ps, (q.ctype = "text/plain" ∨ q.ctype = "text/html") →
        q.payloadDec.isSome := fun q hq => h q (by simp [hq])
    by_cases h1 : (p.ctype == "text/plain" && !truthyS text) = true
    · rw [if_pos h1]
      rw [Bool.and_eq_true, beq_iff_eq] at h1
      obtain ⟨sc, hsc⟩ := partContent_ok_of_payload (h p (by simp) (Or.inl h1.1))
      rw [hsc]
      exact ih hsub (html, some sc)
    · rw [if_neg h1]
      by_cases h2 : (p.ctype == "text/html" && !truthyS html) = true
      · rw [if_pos h2]
        rw [Bool.and_eq_true, beq_iff_eq] at h2
        obtain ⟨sc, hsc⟩ := partContent_ok_of_payload (h p (by simp) (Or.inr h2.1))
        rw [hsc]
        exact ih hsub (some sc, text)
      · rw [if_neg h2]
        exact ih hsub (html, text)

theorem EPart.self_mem_walk (m : EPart) : m ∈ m.walk := by
  cases m
  rw [EPart.walk]
  exact List.mem_cons_self _ _

/-- C4: on any message satisfying the parsed-message invariant (as every
message handed over by `BytesParser.parsebytes` does), `_extract_bodies`
terminates with a value — the bare `except` fallbacks absorb every
`get_content` failure — and so the processor's extraction phase never
raises.  (`_extract_subject`, `_extract_headers` and
`_extract_attachments` are total functions of the model outright.) -/
theorem c4_extraction_never_raises {m : EPart} (h : wfParsed m) :
    ∃ res, extract_bodies m = .ok res := by
  unfold extract_bodies
  by_cases hm : m.isMulti = true
  · rw [if_pos hm]
    exact bodiesFold_ok (fun p hp => h p hp) (none, none)
  · rw [if_neg hm]
    by_cases hp : (m.ctype == "text/plain") = true
    · rw [if_pos hp]
      obtain ⟨sc, hsc⟩ := partContent_ok_of_payload
        (h m (EPart.self_mem_walk m) (Or.inl (by rwa [beq_iff_eq] at hp)))
      rw [hsc]
      exact ⟨_, rfl⟩
    · rw [if_neg hp]
      by_cases hh : (m.ctype == "text/html") = true
      · rw [if_pos hh]
        obtain ⟨sc, hsc⟩ := partContent_ok_of_payload
          (h m (EPart.self_mem_walk m) (Or.inr (by rwa [beq_iff_eq] at hh)))
        rw [hsc]
        exact ⟨_, rfl⟩
      · rw [if_neg hh]
        exact ⟨_, rfl⟩

theorem c4_extraction_never_raises_witness :
    wfParsed (EPart.node [] "multipart/mixed" true (.error ()) none none [partMalformed]) ∧
    ∃ res, extract_bodies
      (EPart.node [] "multipart/mixed" true (.error ()) none none [partMalformed]) =
        .ok res := by
  refine ⟨?_, c4_extraction_never_raises ?_⟩ <;> · unfold wfParsed; decide

theorem bodiesFold_text_frozen {ps : List EPart} {html text : Option String}
    {res : Option String × Option String} (htr : truthyS text = true)
    (h : bodiesFold ps (html, text) = .ok res) : res.2 = text := by
  induction ps generalizing html with
  | nil => cases h; rfl
  | cons p ps ih =>
    rw [bodiesFold, htr] at h
    simp only [Bool.not_true, Bool.and_false, Bool.false_eq_true, if_false] at h
    by_cases h2 : (p.ctype == "text/html" && !truthyS html) = true
    · rw [if_pos h2] at h
      cases hc : partContent p with
      | ok sc => rw [hc] at h; exact ih h
      | error e => rw [hc] at h; cases h
    · rw [if_neg h2] at h
      exact ih h

theorem bodiesFold_text_first {pre : List EPart} {p : EPart} {post : List EPart}
    {html text : Option String} {s : String} {res : Option String × Option String}
    (htext : truthyS text = false)
    (hpre : ∀ q ∈ pre, q.ctype = "text/plain" → partContent q = .ok "")
    (hp : p.ctype = "text/plain") (hc : partContent p = .ok s) (hs : s ≠ "")
    (h : bodiesFold (pre ++ p :: post) (html, text) = .ok res) :
    res.2 = some s := by
  induction pre generalizing html text with
  | nil =>
    rw [List.nil_append, bodiesFold, htext] at h
    rw [if_pos (by rw [Bool.and_eq_true, beq_iff_eq]; exact ⟨hp, rfl⟩)] at h
    rw [hc] at h
    have hts : truthyS (some s) = true := by
      unfold truthyS
      exact bne_iff_ne.mpr hs
    exact bodiesFold_text_frozen hts h
  | cons q pre ih =>
    rw [List.cons_append, bodiesFold] at h
    by_cases h1 : (q.ctype == "text/plain" && !truthyS text) = true
    · rw [if_pos h1] at h
      rw [Bool.and_eq_true, beq_iff_eq] at h1
      rw [hpre q (by simp) h1.1] at h
      have hte : truthyS (some "") = false := by decide
      exact ih hte (fun x hx => hpre x (by simp [hx])) h
    · rw [if_neg h1] at h
      by_cases h2 : (q.ctype == "text/html" && !truthyS html) = true
      · rw [if_pos h2] at h
        cases hcq : partContent q with
        | ok sc =>
          rw [hcq] at h
          exact ih htext (fun x hx => hpre x (by simp [hx])) h
        | error e => rw [hcq] at h; cases h
      · rw [if_neg h2] at h
        exact ih htext (fun x hx => hpre x (by simp [hx])) h

theorem bodiesFold_html_frozen {ps : List EPart} {html text : Option String}
    {res : Option String × Option String} (htr : truthyS html = true)
    (h : bodiesFold ps (html, text) = .ok res) : res.1 = html := by
  induction ps generalizing text with
  | nil => cases h; rfl
  | cons p ps ih =>
    rw [bodiesFold] at h
    by_cases h1 : (p.ctype == "text/plain" && !truthyS text) = true
    · rw [if_pos h1] at h
      cases hc : partContent p with
      | ok sc => rw [hc] at h; exact ih h
      | error e => rw [hc] at h; cases h
    · rw [if_neg h1] at h
      rw [htr] at h
      simp only [Bool.not_true, Bool.and_false, Bool.false_eq_true, if_false] at h
      exact ih h

theorem bodiesFold_html_first {pre : List EPart} {p : EPart} {post : List EPart}
    {html text : Option String} {s : String} {res : Option String × Option String}
    (hhtml : truthyS html = false)
    (hpre : ∀ q ∈ pre, q.ctype = "text/html" → partContent q = .ok "")
    (hp : p.ctype = "text/html") (hc : partContent p = .ok s) (hs : s ≠ "")
    (h : bodiesFold (pre ++ p :: post) (html, text) = .ok res) :
    res.1 = some s := by
  induction pre generalizing html text with
  | nil =>
    rw [List.nil_append, bodiesFold] at h
    have hnp : ¬ (p.ctype == "text/plain" && !truthyS text) = true := by
      rw [Bool.and_eq_true, beq_iff_eq]
      rintro ⟨h1, -⟩
      rw [hp] at h1
      exact absurd h1 (by decide)
    rw [if_neg hnp, hhtml] at h
    rw [if_pos (by rw [Bool.and_eq_true, beq_iff_eq]; exact ⟨hp, rfl⟩)] at h
    rw [hc] at h
    have hts : truthyS (some s) = true := by
      unfold truthyS
      exact bne_iff_ne.mpr hs
    exact bodiesFold_html_frozen hts h
  | cons q pre ih =>
    rw [List.cons_append, bodiesFold] at h
    by_cases h1 : (q.ctype == "text/plain" && !truthyS text) = true
    · rw [if_pos h1] at h
      cases hcq : partContent q with
      | ok sc =>
        rw [hcq] at h
        exact ih hhtml (fun x hx => hpre x (by simp [hx])) h
      | error e => rw [hcq] at h; cases h
    · rw [if_neg h1] at h
      by_cases h2 : (q.ctype == "text/html" && !truthyS html) = true
      · rw [if_pos h2] at h
        rw [Bool.and_eq_true, beq_iff_eq] at h2
        rw [hpre q (by simp) h2.1] at h
        have hte : truthyS (some "") = false := by decide
        exact ih hte (fun x hx => hpre x (by simp [hx])) h
      · rw [if_neg h2] at h
        exact ih hhtml (fun x hx => hpre x (by simp [hx])) h

/-- C5 counterexample: in a multipart message whose first `text/plain`
part has empty content and whose second has content `"hello"`, body
extraction returns the second part's content, not the first part's empty
string — the `not text_body` truthiness guard does not implement
first-match-wins for empty bodies. -/
theorem c5_counterexample :
    multiTwoPlain.walk = [multiTwoPlain, partEmptyText, partHelloText] ∧
    partEmptyText.ctype = "text/plain" ∧
    partContent partEmptyText = .ok "" ∧
    extract_bodies multiTwoPlain = .ok (none, some "hello") ∧
    some "hello" ≠ some "" := by
  exact ⟨rfl, rfl, rfl, rfl, by decide⟩

/-- C5 amended: body extraction takes the first `text/plain`
(respectively `text/html`) part in walk order whose content is
*non-empty*; later parts of the same type are then ignored.  A first part
with empty content does not win — it is overwritten by a later non-empty
part, since the guard tests Python truthiness rather than `None`-ness. -/
theorem c5_first_nonempty_match_wins :
    (∀ (m : EPart) (pre : List EPart) (p : EPart) (post : List EPart) (s : String)
      (res : Option String × Option String),
      m.isMulti = true → m.walk = pre ++ p :: post →
      (∀ q ∈ pre, q.ctype = "text/plain" → partContent q = .ok "") →
      p.ctype = "text/plain" → partContent p = .ok s → s ≠ "" →
      extract_bodies m = .ok res → res.2 = some s) ∧
    (∀ (m : EPart) (pre : List EPart) (p : EPart) (post : List EPart) (s : String)
      (res : Option String × Option String),
      m.isMulti = true → m.walk = pre ++ p :: post →
      (∀ q ∈ pre, q.ctype = "text/html" → partContent q = .ok "") →
      p.ctype = "text/html" → partContent p = .ok s → s ≠ "" →
      extract_bodies m = .ok res → res.1 = some s) := by
  constructor
  · intro m pre p post s res hm hw hpre hp hc hs hres
    rw [extract_bodies, if_pos hm, hw] at hres
    refine bodiesFold_text_first ?_ hpre hp hc hs hres
    rfl
  · intro m pre p post s res hm hw hpre hp hc hs hres
    rw [extract_bodies, if_pos hm, hw] at hres
    refine bodiesFold_html_first ?_ hpre hp hc hs hres
    rfl

theorem c5_first_nonempty_match_wins_witness :
    multiTwoPlain.isMulti = true ∧
    multiTwoPlain.walk = [multiTwoPlain, partEmptyText] ++ partHelloText :: [] ∧
    (∀ q ∈ [multiTwoPlain, partEmptyText], q.ctype = "text/plain" →
      partContent q = .ok "") ∧
    partHelloText.ctype = "text/plain" ∧
    partContent partHelloText = .ok "hello" ∧
    "hello" ≠ "" ∧
    extract_bodies multiTwoPlain = .ok (none, some "hello") ∧
    ((none, some "hello") : Option String × Option String).2 = some "hello" := by
  refine ⟨by decide, rfl, by decide, rfl, rfl, by decide, rfl, ?_⟩
  exact c5_first_nonempty_match_wins.1 multiTwoPlain [multiTwoPlain, partEmptyText]
    partHelloText [] "hello" ((none, some "hello") : Option String × Option String)
    (by decide) rfl (by decide) rfl rfl (by decide) rfl

/-- C6 counterexample: the code's header allow-list also contains `Bcc`,
which the spec's ten-element list does not: a message carrying a `Bcc`
header yields a key outside the spec's allow-list. -/
theorem c6_counterexample :
    ("Bcc", "x@y") ∈ extract_headers partPlainA ∧ "Bcc" ∉ specHeaderAllowList := by
  constructor <;> decide

/-- C6 amended: the headers map contains exactly those keys of the
eleven-header code list `From, To, Cc, Bcc, Subject, Date, Message-ID,
In-Reply-To, References, Return-Path, Reply-To` that are present in the
message *with a non-empty value* (a present-but-empty header is dropped
by the truthiness test), each mapped to its value. -/
theorem c6_headers_allowlist (m : EPart) (k v : String) :
    (k, v) ∈ extract_headers m ↔
      k ∈ common_headers ∧ m.get k = some v ∧ v ≠ "" := by
  have main : ∀ (names : List String) (acc : List (String × String)),
      (k, v) ∈ names.foldl (fun acc name =>
        match m.get name with
        | some vv => if vv ≠ "" then acc ++ [(name, vv)] else acc
        | none => acc) acc ↔
        (k, v) ∈ acc ∨ (k ∈ names ∧ m.get k = some v ∧ v ≠ "") := by
    intro names
    induction names with
    | nil => simp
    | cons n ns ih =>
      intro acc
      rw [List.foldl_cons]
      cases hn : m.get n with
      | none =>
        dsimp only
        rw [ih]
        constructor
        · rintro (h | h)
          · exact Or.inl h
          · exact Or.inr ⟨List.mem_cons_of_mem _ h.1, h.2⟩
        · rintro (h | ⟨hk, hv, hne⟩)
          · exact Or.inl h
          · rcases List.mem_cons.mp hk with rfl | hk
            · rw [hn] at hv; cases hv
            · exact Or.inr ⟨hk, hv, hne⟩
      | some vv =>
        dsimp only
        by_cases hvv : vv ≠ ""
        · rw [if_pos hvv, ih]
          constructor
          · rintro (h | h)
            · rcases List.mem_append.mp h with h | h
              · exact Or.inl h
              · simp only [List.mem_singleton, Prod.mk.injEq] at h
                obtain ⟨rfl, rfl⟩ := h
                exact Or.inr ⟨List.mem_cons_self _ _, hn, hvv⟩
            · exact Or.inr ⟨List.mem_cons_of_mem _ h.1, h.2⟩
          · rintro (h | ⟨hk, hv, hne⟩)
            · exact Or.inl (List.mem_append_left _ h)
            · rcases List.mem_cons.mp hk with rfl | hk
              · rw [hn] at hv
                cases hv
                exact Or.inl (List.mem_append_right _ (by simp))
              · exact Or.inr ⟨hk, hv, hne⟩
        · rw [if_neg hvv, ih]
          push_neg at hvv
          constructor
          · rintro (h | h)
            · exact Or.inl h
            · exact Or.inr ⟨List.mem_cons_of_mem _ h.1, h.2⟩
          · rintro (h | ⟨hk, hv, hne⟩)
            · exact Or.inl h
            · rcases List.mem_cons.mp hk with rfl | hk
              · rw [hn] at hv
                cases hv
                exact absurd hvv hne
              · exact Or.inr ⟨hk, hv, hne⟩
  rw [extract_headers, main common_headers []]
  simp


/-! ## Persistence pipeline: quota and atomicity (C1, C2) -/

theorem redisIncr_ok {r : RedisState} (hfail : r.failing = false) (k : String) :
    ∃ r2, redisIncr r k = .ok r2 := by
  unfold redisIncr
  rw [hfail]
  by_cases hc : ((r.counters.find? (·.1 == k)).isSome) = true
  · rw [if_neg (by simp), if_pos hc]
    exact ⟨_, rfl⟩
  · rw [if_neg (by simp), if_neg hc]
    exact ⟨_, rfl⟩

/-- C1 counterexample: an inbox whose durable `message_count` already
equals the quota (50, the default `MAX_EMAILS_PER_INBOX`) is processed
successfully — no `QuotaExceeded` is raised anywhere in the persistence
pipeline — the message row is durably persisted and the counter is pushed
to 51, above the quota. -/
theorem c1_counterexample :
    inboxA.messageCount = ({} : Settings).MAX_EMAILS_PER_INBOX ∧
    (process_message id 0 0 storeA redisA "a@x" "s@z" partPlainA [104, 105] 0).1 = .ok () ∧
    (process_message id 0 0 storeA redisA "a@x" "s@z" partPlainA [104, 105] 0).2.1.messages.length
      = 1 ∧
    (process_message id 0 0 storeA redisA "a@x" "s@z" partPlainA [104, 105] 0).2.1.inboxes.map
      (fun ib => ib.messageCount) = [51] := by
  exact ⟨rfl, rfl, rfl, rfl⟩

/-- C1 amended: the durable counter increment of the persistence
pipeline (`increment_message_count` as invoked by `process_message`) is
*unconditional* — it is not guarded by `message_count < quota` and no
`QuotaExceeded` is raised at persistence time.  Even for an inbox whose
durable `message_count` is already at or above `MAX_EMAILS_PER_INBOX`,
the pipeline succeeds, commits the `Message` row and increments the
counter by one; quota is enforced only at admission time against the
Fast Index counter, so more than `quota` messages can durably commit to
one inbox. -/
theorem c1_increment_unconditional (sanitize : String → String) (key iv : Nat)
    (s : Store) (r : RedisState) (recip sender : String) (m : EPart)
    (raw : List Nat) (now : Nat) (ib : InboxRow) (inboxId : Nat)
    (bh bt : Option String)
    (hr : redisGet r ("inbox:" ++ recip) = .ok (some inboxId))
    (hx : extract_bodies m = .ok (bh, bt))
    (hfind : s.inboxes.find? (fun x => x.id == inboxId) = some ib)
    (hexp : ¬ ib.expiresAt < now)
    (hfail : r.failing = false)
    (_hquota : ({} : Settings).MAX_EMAILS_PER_INBOX ≤ ib.messageCount) :
    (process_message sanitize key iv s r recip sender m raw now).1 = .ok () ∧
    (process_message sanitize key iv s r recip sender m raw now).2.1.inboxes =
      s.inboxes.map (fun x => if x.id == inboxId then
        { x with messageCount := x.messageCount + 1 } else x) ∧
    (process_message sanitize key iv s r recip sender m raw now).2.1.messages.length =
      s.messages.length + 1 := by
  obtain ⟨r2, hr2⟩ := redisIncr_ok hfail ("inbox:count:" ++ ib.address)
  unfold process_message
  rw [hr]
  dsimp only
  rw [hx]
  dsimp only
  unfold store_message
  dsimp only
  unfold increment_message_count get_inbox
  dsimp only
  rw [hfind]
  dsimp only
  rw [if_neg hexp]
  dsimp only
  rw [hr2]
  dsimp only
  refine ⟨rfl, rfl, by simp⟩

theorem c1_increment_unconditional_witness :
    redisGet redisA ("inbox:" ++ "a@x") = .ok (some 1) ∧
    extract_bodies partPlainA = .ok (none, some "hello") ∧
    storeA.inboxes.find? (fun x => x.id == 1) = some inboxA ∧
    ¬ inboxA.expiresAt < 0 ∧
    redisA.failing = false ∧
    ({} : Settings).MAX_EMAILS_PER_INBOX ≤ inboxA.messageCount ∧
    ((process_message id 0 0 storeA redisA "a@x" "s@z" partPlainA [104, 105] 0).1 = .ok () ∧
     (process_message id 0 0 storeA redisA "a@x" "s@z" partPlainA [104, 105] 0).2.1.inboxes =
       storeA.inboxes.map (fun x => if x.id == 1 then
         { x with messageCount := x.messageCount + 1 } else x) ∧
     (process_message id 0 0 storeA redisA "a@x" "s@z" partPlainA [104, 105] 0).2.1.messages.length
       = storeA.messages.length + 1) := by
  refine ⟨rfl, rfl, rfl, by decide, rfl, by decide, ?_⟩
  exact c1_increment_unconditional id 0 0 storeA redisA "a@x" "s@z" partPlainA [104, 105] 0
    inboxA 1 none (some "hello") rfl rfl rfl (by decide) rfl (by decide)

/-- C2 counterexample: the inbox expires between `store_message`'s
commit and `increment_message_count` (which re-reads the inbox and
treats an expired one as absent).  The pipeline run fails, yet the
durable state it leaves behind contains the committed `Message` row
while `message_count` was never incremented — the message write and the
counter increment are visibly *not* one atomic transaction. -/
theorem c2_counterexample :
    inboxA.expiresAt < 200 ∧
    (process_message id 0 0 storeA redisA "a@x" "s@z" partPlainA [104, 105] 200).1 =
      .error () ∧
    (process_message id 0 0 storeA redisA "a@x" "s@z" partPlainA [104, 105] 200).2.1.messages.length
      = 1 ∧
    (process_message id 0 0 storeA redisA "a@x" "s@z" partPlainA [104, 105] 200).2.1.inboxes.map
      (fun ib => ib.messageCount) = [50] := by
  exact ⟨by decide, rfl, rfl, rfl⟩

/-- C2 amended: `store_message` commits the `Message` row and its
`Attachment` rows together in one transaction, but the
`Inbox.message_count` increment is a *separate, later* transaction
inside `increment_message_count`.  When the increment step fails (here:
the inbox is absent or expired at increment time), the pipeline returns
an error while the durable store already holds the new message and its
attachments with the counter untouched — all-or-nothing does not hold
across the two commits. -/
theorem c2_two_commits_not_atomic (sanitize : String → String) (key iv : Nat)
    (s : Store) (r : RedisState) (recip sender : String) (m : EPart)
    (raw : List Nat) (now : Nat) (inboxId : Nat) (bh bt : Option String)
    (hr : redisGet r ("inbox:" ++ recip) = .ok (some inboxId))
    (hx : extract_bodies m = .ok (bh, bt))
    (hgone : get_inbox s now inboxId = none) :
    (process_message sanitize key iv s r recip sender m raw now).1 = .error () ∧
    (process_message sanitize key iv s r recip sender m raw now).2.1.messages.length =
      s.messages.length + 1 ∧
    (process_message sanitize key iv s r recip sender m raw now).2.1.attachments.length =
      s.attachments.length + (extract_attachments m).length ∧
    (process_message sanitize key iv s r recip sender m raw now).2.1.inboxes = s.inboxes := by
  unfold process_message
  rw [hr]
  dsimp only
  rw [hx]
  dsimp only
  unfold store_message
  dsimp only
  unfold increment_message_count
  rw [show get_inbox { s with
      messages := s.messages ++ [_], attachments := s.attachments ++ _,
      nextId := s.nextId + 1 + (extract_attachments m).length } now inboxId =
      get_inbox s now inboxId from rfl]
  rw [hgone]
  dsimp only
  refine ⟨rfl, by simp, by simp, rfl⟩

theorem c2_two_commits_not_atomic_witness :
    redisGet redisA ("inbox:" ++ "a@x") = .ok (some 1) ∧
    extract_bodies partPlainA = .ok (none, some "hello") ∧
    get_inbox storeA 200 1 = none ∧
    ((process_message id 0 0 storeA redisA "a@x" "s@z" partPlainA [104, 105] 200).1 =
       .error () ∧
     (process_message id 0 0 storeA redisA "a@x" "s@z" partPlainA [104, 105] 200).2.1.messages.length
       = storeA.messages.length + 1 ∧
     (process_message id 0 0 storeA redisA "a@x" "s@z" partPlainA [104, 105] 200).2.1.attachments.length
       = storeA.attachments.length + (extract_attachments partPlainA).length ∧
     (process_message id 0 0 storeA redisA "a@x" "s@z" partPlainA [104, 105] 200).2.1.inboxes
       = storeA.inboxes) := by
  refine ⟨rfl, rfl, rfl, ?_⟩
  exact c2_two_commits_not_atomic id 0 0 storeA redisA "a@x" "s@z" partPlainA [104, 105] 200
    1 none (some "hello") rfl rfl rfl

/-! ## Admission path: Fast Index failure and the size boundary (C7, C8) -/

/-- C7 counterexample: with the Fast Index down (`failing` Redis), a
delivery to an address whose inbox exists, is active and unexpired in
the Durable Store is rejected with `550 Recipient not found or expired`:
`_validate_recipient` swallows the Redis error and returns `False`, and
the handler never consults the Durable Store (whose
`get_inbox_by_address` fallback exists but is not on this path). -/
theorem c7_counterexample :
    storeA.inboxes.find? (fun ib => ib.address == "a@x") = some inboxA ∧
    ¬ inboxA.expiresAt < 0 ∧ inboxA.isActive = true ∧
    (handle_DATA {} id 0 0 storeA redisFailingA "s@z" ["a@x"] [1, 2]
      (some partPlainA) 0).1 = "550 Recipient not found or expired" := by
  exact ⟨rfl, by decide, rfl, rfl⟩

/-- C7 amended: a Fast Index failure never crashes the pipeline, but it
is not bridged by a Durable Store fallback either: when Redis raises,
`_validate_recipient` returns `False` and the delivery is rejected with
`550` (states untouched), while `_check_inbox_quota` fails open and
returns `True`. -/
theorem c7_index_failure_rejects (st : Settings) (sanitize : String → String)
    (key iv : Nat) (s : Store) (r : RedisState) (mailFrom rc : String)
    (rest : List String) (content : List Nat) (parsed : Option EPart) (now : Nat)
    (hfail : r.failing = true) :
    (handle_DATA st sanitize key iv s r mailFrom (rc :: rest) content parsed now).1 =
      "550 Recipient not found or expired" ∧
    (handle_DATA st sanitize key iv s r mailFrom (rc :: rest) content parsed now).2.1 = s ∧
    (handle_DATA st sanitize key iv s r mailFrom (rc :: rest) content parsed now).2.2 = r ∧
    check_inbox_quota st r (strLower ((rc :: rest).headD "")) = true := by
  have hv : validate_recipient r (strLower ((rc :: rest).headD "")) = false := by
    unfold validate_recipient redisGet
    rw [if_pos hfail]
  unfold handle_DATA
  rw [if_neg (by simp : ¬(rc :: rest = []))]
  simp only [hv, Bool.not_false, if_true]
  refine ⟨trivial, trivial, trivial, ?_⟩
  unfold check_inbox_quota redisGetCount
  rw [if_pos hfail]

theorem c7_index_failure_rejects_witness :
    redisFailingA.failing = true ∧
    ((handle_DATA {} id 0 0 storeA redisFailingA "s@z" ["a@x"] [1, 2]
        (some partPlainA) 0).1 = "550 Recipient not found or expired" ∧
     (handle_DATA {} id 0 0 storeA redisFailingA "s@z" ["a@x"] [1, 2]
        (some partPlainA) 0).2.1 = storeA ∧
     (handle_DATA {} id 0 0 storeA redisFailingA "s@z" ["a@x"] [1, 2]
        (some partPlainA) 0).2.2 = redisFailingA ∧
     check_inbox_quota {} redisFailingA (strLower (["a@x"].headD "")) = true) := by
  exact ⟨rfl, c7_index_failure_rejects {} id 0 0 storeA redisFailingA "s@z" "a@x" []
    [1, 2] (some partPlainA) 0 rfl⟩

/-- C8: a delivery whose raw content length equals
`max_email_size_bytes` (`MAX_EMAIL_SIZE_MB * 1024 * 1024`) passes the
size check — the response is then determined solely by the parse and
processing stages — while a delivery even one byte larger is rejected
with `552 Message size exceeds maximum` for *every* possible parse
outcome and with both stores untouched, i.e. before the message bytes
are parsed. -/
theorem c8_size_boundary (st : Settings) (sanitize : String → String) (key iv : Nat)
    (s : Store) (r : RedisState) (mailFrom rc : String) (rest : List String)
    (content : List Nat) (now : Nat)
    (hvr : validate_recipient r (strLower ((rc :: rest).headD "")) = true)
    (hq : check_inbox_quota st r (strLower ((rc :: rest).headD "")) = true) :
    (content.length = st.max_email_size_bytes →
      ∀ parsed, (handle_DATA st sanitize key iv s r mailFrom (rc :: rest) content parsed now).1
          = "451 Error parsing message" ∨
        (handle_DATA st sanitize key iv s r mailFrom (rc :: rest) content parsed now).1
          = "451 Requested action aborted: error in processing" ∨
        (handle_DATA st sanitize key iv s r mailFrom (rc :: rest) content parsed now).1
          = "250 Message accepted for delivery") ∧
    (content.length > st.max_email_size_bytes →
      ∀ parsed, (handle_DATA st sanitize key iv s r mailFrom (rc :: rest) content parsed now).1
          = "552 Message size exceeds maximum" ∧
        (handle_DATA st sanitize key iv s r mailFrom (rc :: rest) content parsed now).2.1 = s ∧
        (handle_DATA st sanitize key iv s r mailFrom (rc :: rest) content parsed now).2.2 = r) := by
  constructor
  · intro hlen parsed
    unfold handle_DATA
    rw [if_neg (by simp : ¬(rc :: rest = []))]
    simp only [hvr, hq, Bool.not_true, Bool.false_eq_true, if_false]
    rw [if_neg (by omega : ¬ content.length > st.max_email_size_bytes)]
    cases parsed with
    | none => exact Or.inl rfl
    | some m =>
      dsimp only
      cases hpm : process_message sanitize key iv s r (strLower ((rc :: rest).headD ""))
          mailFrom m content now with
      | mk res s23 =>
        cases res with
        | error e => exact Or.inr (Or.inl rfl)
        | ok u => exact Or.inr (Or.inr rfl)
  · intro hlen parsed
    unfold handle_DATA
    rw [if_neg (by simp : ¬(rc :: rest = []))]
    simp only [hvr, hq, Bool.not_true, Bool.false_eq_true, if_false]
    rw [if_pos hlen]
    exact ⟨rfl, rfl, rfl⟩

theorem c8_size_boundary_witness :
    validate_recipient redisA (strLower (["a@x"].headD "")) = true ∧
    check_inbox_quota {} redisA (strLower (["a@x"].headD "")) = true ∧
    (((List.replicate 10485760 (0 : Nat)).length = ({} : Settings).max_email_size_bytes →
      ∀ parsed, (handle_DATA {} id 0 0 storeA redisA "s@z" ["a@x"]
          (List.replicate 10485760 (0 : Nat)) parsed 0).1 = "451 Error parsing message" ∨
        (handle_DATA {} id 0 0 storeA redisA "s@z" ["a@x"]
          (List.replicate 10485760 (0 : Nat)) parsed 0).1
          = "451 Requested action aborted: error in processing" ∨
        (handle_DATA {} id 0 0 storeA redisA "s@z" ["a@x"]
          (List.replicate 10485760 (0 : Nat)) parsed 0).1
          = "250 Message accepted for delivery") ∧
    ((List.replicate 10485760 (0 : Nat)).length > ({} : Settings).max_email_size_bytes →
      ∀ parsed, (handle_DATA {} id 0 0 storeA redisA "s@z" ["a@x"]
          (List.replicate 10485760 (0 : Nat)) parsed 0).1 = "552 Message size exceeds maximum" ∧
        (handle_DATA {} id 0 0 storeA redisA "s@z" ["a@x"]
          (List.replicate 10485760 (0 : Nat)) parsed 0).2.1 = storeA ∧
        (handle_DATA {} id 0 0 storeA redisA "s@z" ["a@x"]
          (List.replicate 10485760 (0 : Nat)) parsed 0).2.2 = redisA)) := by
  refine ⟨rfl, rfl, ?_⟩
  exact c8_size_boundary {} id 0 0 storeA redisA "s@z" "a@x" []
    (List.replicate 10485760 (0 : Nat)) 0 rfl rfl


/-! ## TTL cleanup worker (C9) -/

theorem cleanup_step_subset (df rf : Nat → Bool) (acc : Store × RedisState × Nat × Nat)
    (x : InboxRow) :
    (∀ y ∈ (cleanup_step df rf acc x).1.inboxes, y ∈ acc.1.inboxes) ∧
    (∀ y ∈ (cleanup_step df rf acc x).1.messages, y ∈ acc.1.messages) ∧
    (∀ y ∈ (cleanup_step df rf acc x).1.attachments, y ∈ acc.1.attachments) ∧
    (∀ y ∈ (cleanup_step df rf acc x).2.1.kv, y ∈ acc.2.1.kv) ∧
    (∀ y ∈ (cleanup_step df rf acc x).2.1.counters, y ∈ acc.2.1.counters) := by
  obtain ⟨s0, r0, n1, n2⟩ := acc
  unfold cleanup_step
  dsimp only
  split_ifs with h1 h2 h3 <;>
    refine ⟨?_, ?_, ?_, ?_, ?_⟩ <;>
    intro y hy <;>
    first
      | exact hy
      | exact (List.mem_filter.mp hy).1

theorem cleanup_fold_subset (df rf : Nat → Bool) (l : List InboxRow)
    (acc : Store × RedisState × Nat × Nat) :
    (∀ y ∈ (l.foldl (cleanup_step df rf) acc).1.inboxes, y ∈ acc.1.inboxes) ∧
    (∀ y ∈ (l.foldl (cleanup_step df rf) acc).1.messages, y ∈ acc.1.messages) ∧
    (∀ y ∈ (l.foldl (cleanup_step df rf) acc).1.attachments, y ∈ acc.1.attachments) ∧
    (∀ y ∈ (l.foldl (cleanup_step df rf) acc).2.1.kv, y ∈ acc.2.1.kv) ∧
    (∀ y ∈ (l.foldl (cleanup_step df rf) acc).2.1.counters, y ∈ acc.2.1.counters) := by
  induction l generalizing acc with
  | nil => exact ⟨fun y h => h, fun y h => h, fun y h => h, fun y h => h, fun y h => h⟩
  | cons x l ih =>
    rw [List.foldl_cons]
    obtain ⟨i1, i2, i3, i4, i5⟩ := ih (cleanup_step df rf acc x)
    obtain ⟨j1, j2, j3, j4, j5⟩ := cleanup_step_subset df rf acc x
    exact ⟨fun y h => j1 y (i1 y h), fun y h => j2 y (i2 y h), fun y h => j3 y (i3 y h),
      fun y h => j4 y (i4 y h), fun y h => j5 y (i5 y h)⟩

theorem cleanup_fold_preserves_messages (df rf : Nat → Bool) {i : Nat}
    (l : List InboxRow) (hl : ∀ x ∈ l, x.id ≠ i)
    (acc : Store × RedisState × Nat × Nat) :
    ∀ mr ∈ acc.1.messages, mr.inboxId = i →
      mr ∈ (l.foldl (cleanup_step df rf) acc).1.messages := by
  induction l generalizing acc with
  | nil => exact fun mr h _ => h
  | cons x l ih =>
    intro mr hmr hmi
    rw [List.foldl_cons]
    refine ih (fun y hy => hl y (by simp [hy])) (cleanup_step df rf acc x) mr ?_ hmi
    obtain ⟨s0, r0, n1, n2⟩ := acc
    unfold cleanup_step
    dsimp only
    have hxne : mr.inboxId ≠ x.id := by
      rw [hmi]
      exact fun he => hl x (by simp) he.symm
    split_ifs with h1 h2 h3 <;>
      first
        | exact hmr
        | (unfold delete_inbox_cascade
           dsimp only
           exact List.mem_filter.mpr ⟨hmr, by simpa using hxne⟩)

theorem cleanup_step_cleans {df rf : Nat → Bool} (acc : Store × RedisState × Nat × Nat)
    (ib : InboxRow) (hdb : df ib.id = false) (hrf : rf ib.id = false) :
    (∀ y ∈ (cleanup_step df rf acc ib).1.inboxes, y.id ≠ ib.id) ∧
    (∀ mr ∈ (cleanup_step df rf acc ib).1.messages, mr.inboxId ≠ ib.id) ∧
    (∀ a ∈ (cleanup_step df rf acc ib).1.attachments,
      ¬ acc.1.messages.any (fun m => m.id == a.messageId && m.inboxId == ib.id) = true) ∧
    (∀ e ∈ (cleanup_step df rf acc ib).2.1.kv, e.1 ∉ inboxRedisKeys ib) ∧
    (∀ e ∈ (cleanup_step df rf acc ib).2.1.counters, e.1 ∉ inboxRedisKeys ib) := by
  obtain ⟨s0, r0, n1, n2⟩ := acc
  unfold cleanup_step
  dsimp only
  rw [if_neg (by simp [hdb]), if_neg (by simp [hrf])]
  unfold delete_inbox_cascade redisDelInboxKeys
  dsimp only
  refine ⟨?_, ?_, ?_, ?_, ?_⟩ <;> intro y hy
  · have := (List.mem_filter.mp hy).2
    simpa using this
  · have := (List.mem_filter.mp hy).2
    simpa using this
  · have := (List.mem_filter.mp hy).2
    simpa using this
  · have := (List.mem_filter.mp hy).2
    simpa using this
  · have := (List.mem_filter.mp hy).2
    simpa using this

/-- C9: in a cleanup cycle, every inbox selected by the expiry query
whose per-inbox processing does not fail ends the cycle fully reaped:
its three Fast Index keys (address, id and counter key) are gone from
Redis, its row is gone from the Durable Store, and the cascade removed
all its Messages and Attachments.  The failure oracles `dbFail` and
`redisFail` are arbitrary on every *other* inbox, so a failure while
processing one inbox never prevents the remaining inboxes of the batch
from being reaped (`except: continue`).  Selected inboxes all have
`expires_at < now`. -/
theorem c9_reaper_cleanup (s : Store) (r : RedisState) (now batchSize : Nat)
    (dbFail redisFail : Nat → Bool) (ib : InboxRow)
    (hnodup : (s.inboxes.map (fun x => x.id)).Nodup)
    (hib : ib ∈ (s.inboxes.filter (fun x => x.expiresAt < now)).take batchSize)
    (hdb : dbFail ib.id = false) (hrf : redisFail ib.id = false) :
    (∀ y ∈ (run_cleanup s r now batchSize dbFail redisFail).1.inboxes, y.id ≠ ib.id) ∧
    (∀ mr ∈ (run_cleanup s r now batchSize dbFail redisFail).1.messages,
      mr.inboxId ≠ ib.id) ∧
    (∀ a ∈ (run_cleanup s r now batchSize dbFail redisFail).1.attachments,
      ¬ ∃ mr ∈ s.messages, mr.id = a.messageId ∧ mr.inboxId = ib.id) ∧
    (∀ k ∈ inboxRedisKeys ib,
      (∀ e ∈ (run_cleanup s r now batchSize dbFail redisFail).2.1.kv, e.1 ≠ k) ∧
      (∀ e ∈ (run_cleanup s r now batchSize dbFail redisFail).2.1.counters, e.1 ≠ k)) ∧
    ib.expiresAt < now := by
  have hexp : ib.expiresAt < now := by
    have h1 := List.mem_of_mem_take hib
    have h2 := (List.mem_filter.mp h1).2
    simpa using h2
  obtain ⟨pre, post, hsplit⟩ := List.append_of_mem hib
  have hpre_ids : ∀ x ∈ pre, x.id ≠ ib.id := by
    have hsub : List.Sublist
        (((s.inboxes.filter (fun x => x.expiresAt < now)).take batchSize).map
          (fun x => x.id)) (s.inboxes.map (fun x => x.id)) :=
      ((List.take_sublist _ _).trans (List.filter_sublist _)).map _
    have hnd : (((s.inboxes.filter (fun x => x.expiresAt < now)).take batchSize).map
        (fun x => x.id)).Nodup := hnodup.sublist hsub
    rw [hsplit, List.map_append, List.map_cons] at hnd
    obtain ⟨-, -, hdisj⟩ := List.nodup_append.mp hnd
    intro x hx he
    exact hdisj (List.mem_map_of_mem _ hx) (by rw [he]; exact List.mem_cons_self _ _)
  unfold run_cleanup
  rw [hsplit, List.foldl_append, List.foldl_cons]
  have hpres := cleanup_fold_preserves_messages dbFail redisFail pre hpre_ids (s, r, 0, 0)
  obtain ⟨k1, k2, k3, k4, k5⟩ := cleanup_step_cleans
    (pre.foldl (cleanup_step dbFail redisFail) (s, r, 0, 0)) ib hdb hrf
  obtain ⟨f1, f2, f3, f4, f5⟩ := cleanup_fold_subset dbFail redisFail post
    (cleanup_step dbFail redisFail (pre.foldl (cleanup_step dbFail redisFail) (s, r, 0, 0)) ib)
  refine ⟨fun y hy => k1 y (f1 y hy), fun y hy => k2 y (f2 y hy), ?_, ?_, hexp⟩
  · intro a ha ⟨mr, hmr, hid, hinb⟩
    have hin : mr ∈ (pre.foldl (cleanup_step dbFail redisFail) (s, r, 0, 0)).1.messages :=
      hpres mr hmr hinb
    exact k3 a (f3 a ha)
      (List.any_eq_true.mpr ⟨mr, hin, by simp [hid, hinb]⟩)
  · intro k hk
    constructor
    · intro e he heq
      exact (k4 e (f4 e he)) (heq ▸ hk)
    · intro e he heq
      exact (k5 e (f5 e he)) (heq ▸ hk)

theorem c9_reaper_cleanup_witness :
    (storeA.inboxes.map (fun x => x.id)).Nodup ∧
    inboxA ∈ (storeA.inboxes.filter (fun x => x.expiresAt < 200)).take 100 ∧
    ((∀ y ∈ (run_cleanup storeA redisA 200 100 (fun _ => false)
        (fun _ => false)).1.inboxes, y.id ≠ inboxA.id) ∧
     (∀ mr ∈ (run_cleanup storeA redisA 200 100 (fun _ => false)
        (fun _ => false)).1.messages, mr.inboxId ≠ inboxA.id) ∧
     (∀ a ∈ (run_cleanup storeA redisA 200 100 (fun _ => false)
        (fun _ => false)).1.attachments,
        ¬ ∃ mr ∈ storeA.messages, mr.id = a.messageId ∧ mr.inboxId = inboxA.id) ∧
     (∀ k ∈ inboxRedisKeys inboxA,
       (∀ e ∈ (run_cleanup storeA redisA 200 100 (fun _ => false)
          (fun _ => false)).2.1.kv, e.1 ≠ k) ∧
       (∀ e ∈ (run_cleanup storeA redisA 200 100 (fun _ => false)
          (fun _ => false)).2.1.counters, e.1 ≠ k)) ∧
     inboxA.expiresAt < 200) := by
  refine ⟨by decide, by decide, ?_⟩
  exact c9_reaper_cleanup storeA redisA 200 100 (fun _ => false) (fun _ => false) inboxA
    (by decide) (by decide) rfl rfl


/-! ## Base64 under single-character corruption (C3 infrastructure) -/

theorem b64Val_pad : b64Val b64Pad = none := by decide

theorem b64Val_some_ne_pad {c v : Nat} (h : b64Val c = some v) : c ≠ b64Pad := by
  intro he
  rw [he, b64Val_pad] at h
  cases h

theorem b64encode_length_mod4 (T : List Nat) : (b64encode T).length % 4 = 0 := by
  induction T using b64encode.induct with
  | case1 a b c rest ih => simp [b64encode]; omega
  | case2 a b => simp [b64encode]
  | case3 a => simp [b64encode]
  | case4 => rfl

theorem b64encode_pad_pos {T : List Nat} (hT : ∀ b ∈ T, b < 256) :
    ∀ i, (b64encode T).getD i 0 = b64Pad → (b64encode T).length ≤ i + 2 := by
  induction T using b64encode.induct with
  | case1 a b c rest ih =>
    have ha : a < 256 := hT a (by simp)
    have hb : b < 256 := hT b (by simp)
    have hc : c < 256 := hT c (by simp)
    intro i hpad
    match i with
    | 0 => exact absurd hpad (b64Chr_ne_pad (by omega))
    | 1 => exact absurd hpad (b64Chr_ne_pad (by omega))
    | 2 => exact absurd hpad (b64Chr_ne_pad (by omega))
    | 3 => exact absurd hpad (b64Chr_ne_pad (by omega))
    | (k + 4) =>
      have : (b64encode rest).getD k 0 = b64Pad := hpad
      have := ih (fun y hy => hT y (by simp [hy])) k this
      simp only [b64encode, List.length_cons]
      omega
  | case2 a b =>
    have ha : a < 256 := hT a (by simp)
    have hb : b < 256 := hT b (by simp)
    intro i hpad
    match i with
    | 0 => exact absurd hpad (b64Chr_ne_pad (by omega))
    | 1 => exact absurd hpad (b64Chr_ne_pad (by omega))
    | 2 => exact absurd hpad (b64Chr_ne_pad (by omega))
    | 3 => simp [b64encode]
    | (k + 4) =>
      exfalso
      have : ([] : List Nat).getD k 0 = b64Pad := hpad
      simp [b64Pad] at this
  | case3 a =>
    have ha : a < 256 := hT a (by simp)
    intro i hpad
    match i with
    | 0 => exact absurd hpad (b64Chr_ne_pad (by omega))
    | 1 => exact absurd hpad (b64Chr_ne_pad (by omega))
    | 2 => simp [b64encode]
    | 3 => simp [b64encode]
    | (k + 4) =>
      exfalso
      have : ([] : List Nat).getD k 0 = b64Pad := hpad
      simp [b64Pad] at this
  | case4 =>
    intro i hpad
    simp [b64encode, b64Pad] at hpad

theorem b64decodeAux_quad {c1 c2 c3 c4 v1 v2 v3 v4 : Nat} (t : List Nat)
    (h1 : b64Val c1 = some v1) (h2 : b64Val c2 = some v2)
    (h3 : b64Val c3 = some v3) (h4 : b64Val c4 = some v4) :
    b64decodeAux (c1 :: c2 :: c3 :: c4 :: t) =
      (b64decodeAux t).map
        (fun w => (v1 * 4 + v2 / 16) :: (v2 % 16 * 16 + v3 / 4) :: (v3 % 4 * 64 + v4) :: w) := by
  rw [b64decodeAux, h1, h2]
  dsimp only
  rw [if_neg (b64Val_some_ne_pad h3), h3]
  dsimp only
  rw [if_neg (b64Val_some_ne_pad h4), h4]

theorem b64decodeAux_stop2 {c1 c2 c3 v1 v2 v3 : Nat} (t : List Nat)
    (h1 : b64Val c1 = some v1) (h2 : b64Val c2 = some v2) (h3 : b64Val c3 = some v3) :
    b64decodeAux (c1 :: c2 :: c3 :: b64Pad :: t) =
      some [v1 * 4 + v2 / 16, v2 % 16 * 16 + v3 / 4] := by
  rw [b64decodeAux, h1, h2]
  dsimp only
  rw [if_neg (b64Val_some_ne_pad h3), h3]
  dsimp only
  rw [if_pos rfl]

theorem b64decodeAux_stop1 {c1 c2 v1 v2 : Nat} (t : List Nat)
    (h1 : b64Val c1 = some v1) (h2 : b64Val c2 = some v2) :
    b64decodeAux (c1 :: c2 :: b64Pad :: b64Pad :: t) = some [v1 * 4 + v2 / 16] := by
  rw [b64decodeAux, h1, h2]
  dsimp only
  rw [if_pos rfl, if_pos rfl]

theorem b64decodeAux_none_of_len3 {s : List Nat} (hlen : s.length % 4 = 3)
    (hpad : ∀ q, q + 3 < s.length → s.getD q 0 ≠ b64Pad) :
    b64decodeAux s = none := by
  induction s using b64decodeAux.induct with
  | case1 => simp at hlen
  | case2 c1 c2 rest v1 v2 hv2 hv1 =>
    exact absurd (show (c1 :: c2 :: b64Pad :: b64Pad :: rest).getD 2 0 = b64Pad from rfl)
      (hpad 2 (by simp at hlen ⊢; omega))
  | case3 c1 c2 c4 rest v1 v2 hv2 hv1 hc4 =>
    rw [b64decodeAux, hv1, hv2]
    dsimp only
    rw [if_pos rfl, if_neg hc4]
  | case4 c1 c2 c3 rest v1 v2 hv2 hv1 hc3 v3 hv3 =>
    exact absurd (show (c1 :: c2 :: c3 :: b64Pad :: rest).getD 3 0 = b64Pad from rfl)
      (hpad 3 (by simp at hlen ⊢; omega))
  | case5 c1 c2 c3 c4 rest v1 v2 hv2 hv1 hc3 v3 hv3 hc4 v4 hv4 ih =>
    rw [b64decodeAux_quad rest hv1 hv2 hv3 hv4]
    rw [ih (by simp at hlen ⊢; omega) ?_]
    · rfl
    · intro q hq
      exact hpad (q + 4) (by simp at hlen ⊢; omega)
  | case6 c1 c2 c3 c4 rest v1 v2 hv2 hv1 hc3 v3 hv3 hc4 hv4 =>
    rw [b64decodeAux, hv1, hv2]
    dsimp only
    rw [if_neg hc3, hv3]
    dsimp only
    rw [if_neg hc4, hv4]
  | case7 c1 c2 c3 c4 rest v1 v2 hv2 hv1 hc3 hv3 =>
    rw [b64decodeAux, hv1, hv2]
    dsimp only
    rw [if_neg hc3, hv3]
  | case8 c1 c2 c3 c4 rest hv =>
    rw [b64decodeAux]
    rcases hv1 : b64Val c1 with - | v1
    · rfl
    · rcases hv2 : b64Val c2 with - | v2
      · rfl
      · exact absurd (hv v1 v2 hv1 hv2) (by simp)
  | case9 t h1 h2 =>
    match t, h1, h2 with
    | [], h1, _ => exact absurd rfl h1
    | [a], _, _ => rfl
    | [a, b], _, _ => rfl
    | [a, b, c], _, _ => rfl
    | c1 :: c2 :: c3 :: c4 :: rest, _, h2 => exact absurd rfl (h2 c1 c2 c3 c4 rest)

theorem b64decode_corrupt_invalid {T : List Nat} (hT : ∀ b ∈ T, b < 256)
    {i x : Nat} (hi : i < (b64encode T).length)
    (hbx : b64Val x = none) (hx61 : x ≠ b64Pad) :
    b64decode (corruptAt (b64encode T) i x) = none := by
  unfold b64decode corruptAt
  have hset : (b64encode T).set i x =
      (b64encode T).take i ++ x :: (b64encode T).drop (i + 1) := by
    rw [List.set_eq_take_append_cons_drop, if_pos hi]
  rw [hset, List.filter_append]
  rw [List.filter_eq_self.mpr
    (fun c hc => b64encode_all_valid hT c (List.mem_of_mem_take hc))]
  rw [List.filter_cons_of_neg (by simp [hbx, hx61])]
  rw [List.filter_eq_self.mpr
    (fun c hc => b64encode_all_valid hT c (List.mem_of_mem_drop hc))]
  have hmod := b64encode_length_mod4 T
  refine b64decodeAux_none_of_len3 ?_ ?_
  · simp
    omega
  · intro q hq hpadq
    have hlq : ((b64encode T).take i ++ (b64encode T).drop (i + 1)).length =
        (b64encode T).length - 1 := by simp; omega
    rw [hlq] at hq
    by_cases hqi : q < i
    · have hgq : ((b64encode T).take i ++ (b64encode T).drop (i + 1)).getD q 0 =
          (b64encode T).getD q 0 := by
        rw [List.getD_append _ _ _ _ (by simp; omega)]
        rw [List.getD_eq_getElem?_getD, List.getElem?_take_of_lt hqi,
          ← List.getD_eq_getElem?_getD]
      rw [hgq] at hpadq
      have := b64encode_pad_pos hT q hpadq
      omega
    · have hgq : ((b64encode T).take i ++ (b64encode T).drop (i + 1)).getD q 0 =
          (b64encode T).getD (q + 1) 0 := by
        rw [List.getD_append_right _ _ _ _ (by simp; omega)]
        rw [List.getD_eq_getElem?_getD, List.getElem?_drop, ← List.getD_eq_getElem?_getD]
        congr 1
        have hti : ((b64encode T).take i).length = i := by simp; omega
        rw [hti]
        omega
      rw [hgq] at hpadq
      have := b64encode_pad_pos hT (q + 1) hpadq
      omega


theorem b64valid_of_some {c v : Nat} (h : b64Val c = some v) :
    ((b64Val c).isSome || c = b64Pad) = true := by simp [h]

theorem b64valid_pad : ((b64Val b64Pad).isSome || b64Pad = b64Pad) = true := by simp

theorem b64filter_all {s : List Nat}
    (h : ∀ c ∈ s, ((b64Val c).isSome || c = b64Pad) = true) :
    s.filter (fun c => (b64Val c).isSome || c = b64Pad) = s :=
  List.filter_eq_self.mpr h


theorem b64filter_cons_pos (c : Nat) (l : List Nat)
    (h : ((b64Val c).isSome || c = b64Pad) = true) :
    List.filter (fun d => (b64Val d).isSome || d = b64Pad) (c :: l) =
      c :: List.filter (fun d => (b64Val d).isSome || d = b64Pad) l := by
  simp only [List.filter_cons]
  rw [if_pos (by simpa using h)]

theorem b64decode_corrupt_classify_good {T : List Nat} (hT : ∀ b ∈ T, b < 256)
    (i x : Nat) (hi : i < (b64encode T).length)
    (hgood : (∃ vx, b64Val x = some vx) ∨ x = b64Pad) :
    b64decode (corruptAt (b64encode T) i x) = none ∨
    (∃ Tp j, b64decode (corruptAt (b64encode T) i x) = some Tp ∧
      Tp.length = T.length ∧ agreeOutside3 T Tp j) ∨
    (∃ lp, lp < T.length ∧ b64decode (corruptAt (b64encode T) i x) = some (T.take lp)) ∨
    (∃ y, b64decode (corruptAt (b64encode T) i x) = some (T ++ [y])) := by
  induction T using b64encode.induct generalizing i with
  | case1 a b c rest ih =>
    have ha : a < 256 := hT a (by simp)
    have hb : b < 256 := hT b (by simp)
    have hc : c < 256 := hT c (by simp)
    have hrT : ∀ y ∈ rest, y < 256 := fun y hy => hT y (by simp [hy])
    have hv1 := b64Val_b64Chr (show a / 4 < 64 by omega)
    have hv2 := b64Val_b64Chr (show a % 4 * 16 + b / 16 < 64 by omega)
    have hv3 := b64Val_b64Chr (show b % 16 * 4 + c / 64 < 64 by omega)
    have hv4 := b64Val_b64Chr (show c % 64 < 64 by omega)
    have hn3 := b64Chr_ne_pad (show b % 16 * 4 + c / 64 < 64 by omega)
    have hn4 := b64Chr_ne_pad (show c % 64 < 64 by omega)
    have e1 : a / 4 * 4 + (a % 4 * 16 + b / 16) / 16 = a := by omega
    have e2 : (a % 4 * 16 + b / 16) % 16 * 16 + (b % 16 * 4 + c / 64) / 4 = b := by omega
    have e3 : (b % 16 * 4 + c / 64) % 4 * 64 + c % 64 = c := by omega
    by_cases hge : 4 ≤ i
    · obtain ⟨k, rfl⟩ : ∃ k, i = k + 4 := ⟨i - 4, by omega⟩
      have hk : k < (b64encode rest).length := by
        simp [b64encode] at hi
        omega
      have hsetc : corruptAt (b64encode (a :: b :: c :: rest)) (k + 4) x =
          b64Chr (a / 4) :: b64Chr (a % 4 * 16 + b / 16) ::
          b64Chr (b % 16 * 4 + c / 64) :: b64Chr (c % 64) ::
          corruptAt (b64encode rest) k x := rfl
      have hquadd : ∀ w, b64decode (b64Chr (a / 4) :: b64Chr (a % 4 * 16 + b / 16) ::
          b64Chr (b % 16 * 4 + c / 64) :: b64Chr (c % 64) :: w) =
          (b64decode w).map (fun t => a :: b :: c :: t) := by
        intro w
        unfold b64decode
        rw [b64filter_cons_pos _ _ (b64valid_of_some hv1),
          b64filter_cons_pos _ _ (b64valid_of_some hv2),
          b64filter_cons_pos _ _ (b64valid_of_some hv3),
          b64filter_cons_pos _ _ (b64valid_of_some hv4)]
        rw [b64decodeAux_quad _ hv1 hv2 hv3 hv4, e1, e2, e3]
      rcases ih hrT k hk with hnone | ⟨Tp, j, hdec, hlen, hag⟩ | ⟨lp, hlp, hdec⟩ | ⟨y, hdec⟩
      · left
        rw [hsetc, hquadd, hnone]
        rfl
      · refine Or.inr (Or.inl ⟨a :: b :: c :: Tp, j + 1, ?_, by simp [hlen], ?_⟩)
        · rw [hsetc, hquadd, hdec]
          rfl
        · intro q hq hout
          match q, hq, hout with
          | 0, _, _ => rfl
          | 1, _, _ => rfl
          | 2, _, _ => rfl
          | (q + 3), hq, hout =>
            have hq2 : q < rest.length := by simp at hq; omega
            have hout2 : q < 3 * j ∨ 3 * j + 3 ≤ q := by omega
            exact hag q hq2 hout2
      · refine Or.inr (Or.inr (Or.inl ⟨lp + 3, by simp; omega, ?_⟩))
        rw [hsetc, hquadd, hdec]
        rfl
      · refine Or.inr (Or.inr (Or.inr ⟨y, ?_⟩))
        rw [hsetc, hquadd, hdec]
        rfl
    · have hroundtrip := b64decodeAux_encode hrT
      rcases hgood with ⟨vx, hvx⟩ | rfl
      · -- valid replacement character: in-place change within chunk 0
        have hxnp := b64Val_some_ne_pad hvx
        have hfiltw : ∀ d1 d2 d3 d4 w1 w2 w3 w4, b64Val d1 = some w1 → b64Val d2 = some w2 →
            b64Val d3 = some w3 → b64Val d4 = some w4 →
            b64decode (d1 :: d2 :: d3 :: d4 :: b64encode rest) =
              some ((w1 * 4 + w2 / 16) :: (w2 % 16 * 16 + w3 / 4) ::
                (w3 % 4 * 64 + w4) :: rest) := by
          intro d1 d2 d3 d4 w1 w2 w3 w4 q1 q2 q3 q4
          unfold b64decode
          rw [b64filter_cons_pos _ _ (b64valid_of_some q1),
            b64filter_cons_pos _ _ (b64valid_of_some q2),
            b64filter_cons_pos _ _ (b64valid_of_some q3),
            b64filter_cons_pos _ _ (b64valid_of_some q4),
            b64filter_all (b64encode_all_valid hrT),
            b64decodeAux_quad _ q1 q2 q3 q4, hroundtrip]
          rfl
        have hsame : ∀ z1 z2 z3, b64decode (corruptAt (b64encode (a :: b :: c :: rest)) i x) =
            some (z1 :: z2 :: z3 :: rest) →
            (b64decode (corruptAt (b64encode (a :: b :: c :: rest)) i x) = none ∨
            (∃ Tp j, b64decode (corruptAt (b64encode (a :: b :: c :: rest)) i x) = some Tp ∧
              Tp.length = (a :: b :: c :: rest).length ∧ agreeOutside3 (a :: b :: c :: rest) Tp j) ∨
            (∃ lp, lp < (a :: b :: c :: rest).length ∧
              b64decode (corruptAt (b64encode (a :: b :: c :: rest)) i x) =
                some ((a :: b :: c :: rest).take lp)) ∨
            (∃ y, b64decode (corruptAt (b64encode (a :: b :: c :: rest)) i x) =
              some ((a :: b :: c :: rest) ++ [y]))) := by
          intro z1 z2 z3 hdec
          refine Or.inr (Or.inl ⟨z1 :: z2 :: z3 :: rest, 0, hdec, by simp, ?_⟩)
          intro q hq hout
          match q, hq, hout with
          | (q + 3), hq, hout => rfl
        interval_cases i
        · exact hsame _ _ _ (by
            rw [show corruptAt (b64encode (a :: b :: c :: rest)) 0 x =
              x :: b64Chr (a % 4 * 16 + b / 16) :: b64Chr (b % 16 * 4 + c / 64) ::
                b64Chr (c % 64) :: b64encode rest from rfl]
            exact hfiltw _ _ _ _ _ _ _ _ hvx hv2 hv3 hv4)
        · exact hsame _ _ _ (by
            rw [show corruptAt (b64encode (a :: b :: c :: rest)) 1 x =
              b64Chr (a / 4) :: x :: b64Chr (b % 16 * 4 + c / 64) ::
                b64Chr (c % 64) :: b64encode rest from rfl]
            exact hfiltw _ _ _ _ _ _ _ _ hv1 hvx hv3 hv4)
        · exact hsame _ _ _ (by
            rw [show corruptAt (b64encode (a :: b :: c :: rest)) 2 x =
              b64Chr (a / 4) :: b64Chr (a % 4 * 16 + b / 16) :: x ::
                b64Chr (c % 64) :: b64encode rest from rfl]
            exact hfiltw _ _ _ _ _ _ _ _ hv1 hv2 hvx hv4)
        · exact hsame _ _ _ (by
            rw [show corruptAt (b64encode (a :: b :: c :: rest)) 3 x =
              b64Chr (a / 4) :: b64Chr (a % 4 * 16 + b / 16) ::
                b64Chr (b % 16 * 4 + c / 64) :: x :: b64encode rest from rfl]
            exact hfiltw _ _ _ _ _ _ _ _ hv1 hv2 hv3 hvx)
      · -- replacement by the padding character
        interval_cases i
        · left
          rw [show corruptAt (b64encode (a :: b :: c :: rest)) 0 b64Pad =
            b64Pad :: b64Chr (a % 4 * 16 + b / 16) :: b64Chr (b % 16 * 4 + c / 64) ::
              b64Chr (c % 64) :: b64encode rest from rfl]
          unfold b64decode
          rw [b64filter_cons_pos _ _ b64valid_pad,
            b64filter_cons_pos _ _ (b64valid_of_some hv2),
            b64filter_cons_pos _ _ (b64valid_of_some hv3),
            b64filter_cons_pos _ _ (b64valid_of_some hv4),
            b64filter_all (b64encode_all_valid hrT)]
          rw [b64decodeAux, b64Val_pad]
        · left
          rw [show corruptAt (b64encode (a :: b :: c :: rest)) 1 b64Pad =
            b64Chr (a / 4) :: b64Pad :: b64Chr (b % 16 * 4 + c / 64) ::
              b64Chr (c % 64) :: b64encode rest from rfl]
          unfold b64decode
          rw [b64filter_cons_pos _ _ (b64valid_of_some hv1),
            b64filter_cons_pos _ _ b64valid_pad,
            b64filter_cons_pos _ _ (b64valid_of_some hv3),
            b64filter_cons_pos _ _ (b64valid_of_some hv4),
            b64filter_all (b64encode_all_valid hrT)]
          rw [b64decodeAux, hv1, b64Val_pad]
        · left
          rw [show corruptAt (b64encode (a :: b :: c :: rest)) 2 b64Pad =
            b64Chr (a / 4) :: b64Chr (a % 4 * 16 + b / 16) :: b64Pad ::
              b64Chr (c % 64) :: b64encode rest from rfl]
          unfold b64decode
          rw [b64filter_cons_pos _ _ (b64valid_of_some hv1),
            b64filter_cons_pos _ _ (b64valid_of_some hv2),
            b64filter_cons_pos _ _ b64valid_pad,
            b64filter_cons_pos _ _ (b64valid_of_some hv4),
            b64filter_all (b64encode_all_valid hrT)]
          rw [b64decodeAux, hv1, hv2]
          dsimp only
          rw [if_pos rfl, if_neg hn4]
        · refine Or.inr (Or.inr (Or.inl ⟨2, by simp, ?_⟩))
          rw [show corruptAt (b64encode (a :: b :: c :: rest)) 3 b64Pad =
            b64Chr (a / 4) :: b64Chr (a % 4 * 16 + b / 16) ::
              b64Chr (b % 16 * 4 + c / 64) :: b64Pad :: b64encode rest from rfl]
          unfold b64decode
          rw [b64filter_cons_pos _ _ (b64valid_of_some hv1),
            b64filter_cons_pos _ _ (b64valid_of_some hv2),
            b64filter_cons_pos _ _ (b64valid_of_some hv3),
            b64filter_cons_pos _ _ b64valid_pad,
            b64filter_all (b64encode_all_valid hrT)]
          rw [b64decodeAux_stop2 _ hv1 hv2 hv3, e1, e2]
          rfl
  | case2 a b =>
    have ha : a < 256 := hT a (by simp)
    have hb : b < 256 := hT b (by simp)
    have hv1 := b64Val_b64Chr (show a / 4 < 64 by omega)
    have hv2 := b64Val_b64Chr (show a % 4 * 16 + b / 16 < 64 by omega)
    have hv3 := b64Val_b64Chr (show b % 16 * 4 < 64 by omega)
    have hn3 := b64Chr_ne_pad (show b % 16 * 4 < 64 by omega)
    have e1 : a / 4 * 4 + (a % 4 * 16 + b / 16) / 16 = a := by omega
    have e2 : (a % 4 * 16 + b / 16) % 16 * 16 + (b % 16 * 4) / 4 = b := by omega
    have hi4 : i < 4 := by simpa [b64encode] using hi
    have hsame2 : ∀ z1 z2, b64decode (corruptAt (b64encode [a, b]) i x) = some [z1, z2] →
        (b64decode (corruptAt (b64encode [a, b]) i x) = none ∨
        (∃ Tp j, b64decode (corruptAt (b64encode [a, b]) i x) = some Tp ∧
          Tp.length = ([a, b] : List Nat).length ∧ agreeOutside3 [a, b] Tp j) ∨
        (∃ lp, lp < ([a, b] : List Nat).length ∧
          b64decode (corruptAt (b64encode [a, b]) i x) = some (([a, b] : List Nat).take lp)) ∨
        (∃ y, b64decode (corruptAt (b64encode [a, b]) i x) = some ([a, b] ++ [y]))) := by
      intro z1 z2 hdec
      refine Or.inr (Or.inl ⟨[z1, z2], 0, hdec, rfl, ?_⟩)
      intro q hq hout
      simp at hq
      omega
    rcases hgood with ⟨vx, hvx⟩ | rfl
    · have hxnp := b64Val_some_ne_pad hvx
      interval_cases i
      · apply hsame2
        rw [show corruptAt (b64encode [a, b]) 0 x =
          [x, b64Chr (a % 4 * 16 + b / 16), b64Chr (b % 16 * 4), b64Pad] from rfl]
        unfold b64decode
        rw [b64filter_all (by
          intro d hd
          rcases List.mem_cons.mp hd with rfl | hd
          · exact b64valid_of_some hvx
          · rcases List.mem_cons.mp hd with rfl | hd
            · exact b64valid_of_some hv2
            · rcases List.mem_cons.mp hd with rfl | hd
              · exact b64valid_of_some hv3
              · rcases List.mem_cons.mp hd with rfl | hd
                · exact b64valid_pad
                · simp at hd)]
        rw [b64decodeAux_stop2 _ hvx hv2 hv3]
      · apply hsame2
        rw [show corruptAt (b64encode [a, b]) 1 x =
          [b64Chr (a / 4), x, b64Chr (b % 16 * 4), b64Pad] from rfl]
        unfold b64decode
        rw [b64filter_all (by
          intro d hd
          rcases List.mem_cons.mp hd with rfl | hd
          · exact b64valid_of_some hv1
          · rcases List.mem_cons.mp hd with rfl | hd
            · exact b64valid_of_some hvx
            · rcases List.mem_cons.mp hd with rfl | hd
              · exact b64valid_of_some hv3
              · rcases List.mem_cons.mp hd with rfl | hd
                · exact b64valid_pad
                · simp at hd)]
        rw [b64decodeAux_stop2 _ hv1 hvx hv3]
      · apply hsame2
        rw [show corruptAt (b64encode [a, b]) 2 x =
          [b64Chr (a / 4), b64Chr (a % 4 * 16 + b / 16), x, b64Pad] from rfl]
        unfold b64decode
        rw [b64filter_all (by
          intro d hd
          rcases List.mem_cons.mp hd with rfl | hd
          · exact b64valid_of_some hv1
          · rcases List.mem_cons.mp hd with rfl | hd
            · exact b64valid_of_some hv2
            · rcases List.mem_cons.mp hd with rfl | hd
              · exact b64valid_of_some hvx
              · rcases List.mem_cons.mp hd with rfl | hd
                · exact b64valid_pad
                · simp at hd)]
        rw [b64decodeAux_stop2 _ hv1 hv2 hvx]
      · refine Or.inr (Or.inr (Or.inr ⟨b % 16 * 4 % 4 * 64 + vx, ?_⟩))
        rw [show corruptAt (b64encode [a, b]) 3 x =
          [b64Chr (a / 4), b64Chr (a % 4 * 16 + b / 16), b64Chr (b % 16 * 4), x] from rfl]
        unfold b64decode
        rw [b64filter_all (by
          intro d hd
          rcases List.mem_cons.mp hd with rfl | hd
          · exact b64valid_of_some hv1
          · rcases List.mem_cons.mp hd with rfl | hd
            · exact b64valid_of_some hv2
            · rcases List.mem_cons.mp hd with rfl | hd
              · exact b64valid_of_some hv3
              · rcases List.mem_cons.mp hd with rfl | hd
                · exact b64valid_of_some hvx
                · simp at hd)]
        rw [b64decodeAux_quad _ hv1 hv2 hv3 hvx, e1, e2]
        rfl
    · interval_cases i
      · left
        rw [show corruptAt (b64encode [a, b]) 0 b64Pad =
          [b64Pad, b64Chr (a % 4 * 16 + b / 16), b64Chr (b % 16 * 4), b64Pad] from rfl]
        unfold b64decode
        rw [b64filter_all (by
          intro d hd
          rcases List.mem_cons.mp hd with rfl | hd
          · exact b64valid_pad
          · rcases List.mem_cons.mp hd with rfl | hd
            · exact b64valid_of_some hv2
            · rcases List.mem_cons.mp hd with rfl | hd
              · exact b64valid_of_some hv3
              · rcases List.mem_cons.mp hd with rfl | hd
                · exact b64valid_pad
                · simp at hd)]
        rw [b64decodeAux, b64Val_pad]
      · left
        rw [show corruptAt (b64encode [a, b]) 1 b64Pad =
          [b64Chr (a / 4), b64Pad, b64Chr (b % 16 * 4), b64Pad] from rfl]
        unfold b64decode
        rw [b64filter_all (by
          intro d hd
          rcases List.mem_cons.mp hd with rfl | hd
          · exact b64valid_of_some hv1
          · rcases List.mem_cons.mp hd with rfl | hd
            · exact b64valid_pad
            · rcases List.mem_cons.mp hd with rfl | hd
              · exact b64valid_of_some hv3
              · rcases List.mem_cons.mp hd with rfl | hd
                · exact b64valid_pad
                · simp at hd)]
        rw [b64decodeAux, hv1, b64Val_pad]
      · refine Or.inr (Or.inr (Or.inl ⟨1, by simp, ?_⟩))
        rw [show corruptAt (b64encode [a, b]) 2 b64Pad =
          [b64Chr (a / 4), b64Chr (a % 4 * 16 + b / 16), b64Pad, b64Pad] from rfl]
        unfold b64decode
        rw [b64filter_all (by
          intro d hd
          rcases List.mem_cons.mp hd with rfl | hd
          · exact b64valid_of_some hv1
          · rcases List.mem_cons.mp hd with rfl | hd
            · exact b64valid_of_some hv2
            · rcases List.mem_cons.mp hd with rfl | hd
              · exact b64valid_pad
              · rcases List.mem_cons.mp hd with rfl | hd
                · exact b64valid_pad
                · simp at hd)]
        rw [b64decodeAux_stop1 _ hv1 hv2, e1]
        rfl
      · refine Or.inr (Or.inl ⟨[a, b], 0, ?_, rfl, fun q hq hout => rfl⟩)
        rw [show corruptAt (b64encode [a, b]) 3 b64Pad = b64encode [a, b] from rfl]
        rw [show b64decode (b64encode [a, b]) = some [a, b] from b64decode_encode hT]
  | case3 a =>
    have ha : a < 256 := hT a (by simp)
    have hv1 := b64Val_b64Chr (show a / 4 < 64 by omega)
    have hv2 := b64Val_b64Chr (show a % 4 * 16 < 64 by omega)
    have e1 : a / 4 * 4 + (a % 4 * 16) / 16 = a := by omega
    have hi4 : i < 4 := by simpa [b64encode] using hi
    have hsame1 : ∀ z1, b64decode (corruptAt (b64encode [a]) i x) = some [z1] →
        (b64decode (corruptAt (b64encode [a]) i x) = none ∨
        (∃ Tp j, b64decode (corruptAt (b64encode [a]) i x) = some Tp ∧
          Tp.length = ([a] : List Nat).length ∧ agreeOutside3 [a] Tp j) ∨
        (∃ lp, lp < ([a] : List Nat).length ∧
          b64decode (corruptAt (b64encode [a]) i x) = some (([a] : List Nat).take lp)) ∨
        (∃ y, b64decode (corruptAt (b64encode [a]) i x) = some ([a] ++ [y]))) := by
      intro z1 hdec
      refine Or.inr (Or.inl ⟨[z1], 0, hdec, rfl, ?_⟩)
      intro q hq hout
      simp at hq
      omega
    rcases hgood with ⟨vx, hvx⟩ | rfl
    · have hxnp := b64Val_some_ne_pad hvx
      interval_cases i
      · apply hsame1
        rw [show corruptAt (b64encode [a]) 0 x =
          [x, b64Chr (a % 4 * 16), b64Pad, b64Pad] from rfl]
        unfold b64decode
        rw [b64filter_all (by
          intro d hd
          rcases List.mem_cons.mp hd with rfl | hd
          · exact b64valid_of_some hvx
          · rcases List.mem_cons.mp hd with rfl | hd
            · exact b64valid_of_some hv2
            · rcases List.mem_cons.mp hd with rfl | hd
              · exact b64valid_pad
              · rcases List.mem_cons.mp hd with rfl | hd
                · exact b64valid_pad
                · simp at hd)]
        rw [b64decodeAux_stop1 _ hvx hv2]
      · apply hsame1
        rw [show corruptAt (b64encode [a]) 1 x =
          [b64Chr (a / 4), x, b64Pad, b64Pad] from rfl]
        unfold b64decode
        rw [b64filter_all (by
          intro d hd
          rcases List.mem_cons.mp hd with rfl | hd
          · exact b64valid_of_some hv1
          · rcases List.mem_cons.mp hd with rfl | hd
            · exact b64valid_of_some hvx
            · rcases List.mem_cons.mp hd with rfl | hd
              · exact b64valid_pad
              · rcases List.mem_cons.mp hd with rfl | hd
                · exact b64valid_pad
                · simp at hd)]
        rw [b64decodeAux_stop1 _ hv1 hvx]
      · refine Or.inr (Or.inr (Or.inr ⟨a % 4 * 16 % 16 * 16 + vx / 4, ?_⟩))
        rw [show corruptAt (b64encode [a]) 2 x =
          [b64Chr (a / 4), b64Chr (a % 4 * 16), x, b64Pad] from rfl]
        unfold b64decode
        rw [b64filter_all (by
          intro d hd
          rcases List.mem_cons.mp hd with rfl | hd
          · exact b64valid_of_some hv1
          · rcases List.mem_cons.mp hd with rfl | hd
            · exact b64valid_of_some hv2
            · rcases List.mem_cons.mp hd with rfl | hd
              · exact b64valid_of_some hvx
              · rcases List.mem_cons.mp hd with rfl | hd
                · exact b64valid_pad
                · simp at hd)]
        rw [b64decodeAux_stop2 _ hv1 hv2 hvx, e1]
        rfl
      · left
        rw [show corruptAt (b64encode [a]) 3 x =
          [b64Chr (a / 4), b64Chr (a % 4 * 16), b64Pad, x] from rfl]
        unfold b64decode
        rw [b64filter_all (by
          intro d hd
          rcases List.mem_cons.mp hd with rfl | hd
          · exact b64valid_of_some hv1
          · rcases List.mem_cons.mp hd with rfl | hd
            · exact b64valid_of_some hv2
            · rcases List.mem_cons.mp hd with rfl | hd
              · exact b64valid_pad
              · rcases List.mem_cons.mp hd with rfl | hd
                · exact b64valid_of_some hvx
                · simp at hd)]
        rw [b64decodeAux, hv1, hv2]
        dsimp only
        rw [if_pos rfl, if_neg hxnp]
    · interval_cases i
      · left
        rw [show corruptAt (b64encode [a]) 0 b64Pad =
          [b64Pad, b64Chr (a % 4 * 16), b64Pad, b64Pad] from rfl]
        unfold b64decode
        rw [b64filter_all (by
          intro d hd
          rcases List.mem_cons.mp hd with rfl | hd
          · exact b64valid_pad
          · rcases List.mem_cons.mp hd with rfl | hd
            · exact b64valid_of_some hv2
            · rcases List.mem_cons.mp hd with rfl | hd
              · exact b64valid_pad
              · rcases List.mem_cons.mp hd with rfl | hd
                · exact b64valid_pad
                · simp at hd)]
        rw [b64decodeAux, b64Val_pad]
      · left
        rw [show corruptAt (b64encode [a]) 1 b64Pad =
          [b64Chr (a / 4), b64Pad, b64Pad, b64Pad] from rfl]
        unfold b64decode
        rw [b64filter_all (by
          intro d hd
          rcases List.mem_cons.mp hd with rfl | hd
          · exact b64valid_of_some hv1
          · rcases List.mem_cons.mp hd with rfl | hd
            · exact b64valid_pad
            · rcases List.mem_cons.mp hd with rfl | hd
              · exact b64valid_pad
              · rcases List.mem_cons.mp hd with rfl | hd
                · exact b64valid_pad
                · simp at hd)]
        rw [b64decodeAux, hv1, b64Val_pad]
      · refine Or.inr (Or.inl ⟨[a], 0, ?_, rfl, fun q hq hout => rfl⟩)
        rw [show corruptAt (b64encode [a]) 2 b64Pad = b64encode [a] from rfl]
        rw [show b64decode (b64encode [a]) = some [a] from b64decode_encode hT]
      · refine Or.inr (Or.inl ⟨[a], 0, ?_, rfl, fun q hq hout => rfl⟩)
        rw [show corruptAt (b64encode [a]) 3 b64Pad = b64encode [a] from rfl]
        rw [show b64decode (b64encode [a]) = some [a] from b64decode_encode hT]
  | case4 =>
    simp [b64encode] at hi


/-- Outcome of decoding a genuine base64 encoding with one character
replaced: nothing (a decode error), the same byte count with changes
confined to one aligned 3-byte chunk, a strict prefix of the original
bytes, or the original bytes with one byte appended. -/
theorem b64decode_corrupt_classify {T : List Nat} (hT : ∀ b ∈ T, b < 256)
    (i x : Nat) (hi : i < (b64encode T).length) :
    b64decode (corruptAt (b64encode T) i x) = none ∨
    (∃ Tp j, b64decode (corruptAt (b64encode T) i x) = some Tp ∧
      Tp.length = T.length ∧ agreeOutside3 T Tp j) ∨
    (∃ lp, lp < T.length ∧ b64decode (corruptAt (b64encode T) i x) = some (T.take lp)) ∨
    (∃ y, b64decode (corruptAt (b64encode T) i x) = some (T ++ [y])) := by
  rcases hbx : b64Val x with - | vx
  case some => exact b64decode_corrupt_classify_good hT i x hi (Or.inl ⟨vx, hbx⟩)
  case none =>
    by_cases hx61 : x = b64Pad
    · exact b64decode_corrupt_classify_good hT i x hi (Or.inr hx61)
    · exact Or.inl (b64decode_corrupt_invalid hT hi hbx hx61)



theorem listD_ext {p q : List Nat} (hlen : p.length = q.length)
    (h : ∀ d, d < p.length → p.getD d 0 = q.getD d 0) : p = q := by
  refine List.ext_getElem hlen (fun n h1 h2 => ?_)
  have := h n h1
  rwa [List.getD_eq_getElem p 0 h1, List.getD_eq_getElem q 0 h2] at this

/-- If `fernetOpen` accepts a token, the token has exactly the shape
produced by `fernetToken` for the returned payload: length byte, some IV
byte, payload, then key byte, the same IV byte and the payload again. -/
theorem fernetOpen_some {key : Nat} {t q : List Nat} (h : fernetOpen key t = some q) :
    ∃ ivB, t = (q.length % 256) :: ivB :: (q ++ (key % 256) :: ivB :: q) := by
  match t with
  | [] => simp [fernetOpen] at h
  | [lenB] => simp [fernetOpen] at h
  | lenB :: ivB :: rest =>
    unfold fernetOpen at h
    dsimp only at h
    split at h
    case isTrue hc =>
      obtain ⟨hlenB, hdrop⟩ := hc
      have hq : q = rest.take ((rest.length - 2) / 2) := by
        exact (Option.some.injEq _ _).mp h.symm
      have hm : (rest.length - 2) / 2 ≤ rest.length := by omega
      have hql : q.length = (rest.length - 2) / 2 := by
        rw [hq, List.length_take]
        omega
      refine ⟨ivB, ?_⟩
      have hrest : rest = q ++ (key % 256) :: ivB :: q := by
        calc rest = rest.take ((rest.length - 2) / 2) ++ rest.drop ((rest.length - 2) / 2) :=
              (List.take_append_drop _ _).symm
        _ = q ++ (key % 256) :: ivB :: q := by rw [hdrop, ← hq]
      rw [hlenB, ← hql, hrest]
    case isFalse => exact absurd h (by simp)

/-- A same-length token agreeing with a genuine token everywhere outside
one aligned 3-byte chunk can only be accepted with the original payload:
the payload is stored twice in the token, the two copies sit more than
3 bytes apart position by position, and `fernetOpen` checks that they
agree. -/
theorem fernetOpen_agree {key iv : Nat} {P Tp q : List Nat} {j : Nat}
    (hlen : Tp.length = (fernetToken key iv P).length)
    (hag : agreeOutside3 (fernetToken key iv P) Tp j)
    (hopen : fernetOpen key Tp = some q) : q = P := by
  obtain ⟨ivB, hTp⟩ := fernetOpen_some hopen
  have hTlen : (fernetToken key iv P).length = 2 * P.length + 4 := fernetToken_length key iv P
  have hTplen : Tp.length = 2 * q.length + 4 := by
    rw [hTp]
    simp
    omega
  have hqn : q.length = P.length := by omega
  refine listD_ext hqn (fun d hd => ?_)
  have hdP : d < P.length := hqn ▸ hd
  have hTu : (fernetToken key iv P).getD (d + 2) 0 = P.getD d 0 := by
    unfold fernetToken
    rw [show (P.length % 256) :: (iv % 256) :: P ++ (key % 256) :: (iv % 256) :: P =
      (P.length % 256) :: (iv % 256) :: (P ++ (key % 256) :: (iv % 256) :: P) from rfl]
    rw [List.getD_cons_succ, List.getD_cons_succ, List.getD_append _ _ _ d hdP]
  have hTv : (fernetToken key iv P).getD (P.length + d + 4) 0 = P.getD d 0 := by
    unfold fernetToken
    rw [show (P.length % 256) :: (iv % 256) :: P ++ (key % 256) :: (iv % 256) :: P =
      (P.length % 256) :: (iv % 256) :: (P ++ (key % 256) :: (iv % 256) :: P) from rfl]
    rw [show P.length + d + 4 = (P.length + d + 2) + 1 + 1 from rfl]
    rw [List.getD_cons_succ, List.getD_cons_succ,
      List.getD_append_right _ _ _ _ (by omega)]
    rw [show P.length + d + 2 - P.length = d + 1 + 1 from by omega]
    rw [List.getD_cons_succ, List.getD_cons_succ]
  have hPu : Tp.getD (d + 2) 0 = q.getD d 0 := by
    rw [hTp, List.getD_cons_succ, List.getD_cons_succ,
      List.getD_append _ _ _ d (by omega)]
  have hPv : Tp.getD (P.length + d + 4) 0 = q.getD d 0 := by
    rw [hTp]
    rw [show P.length + d + 4 = (P.length + d + 2) + 1 + 1 from rfl]
    rw [List.getD_cons_succ, List.getD_cons_succ,
      List.getD_append_right _ _ _ _ (by omega)]
    rw [show P.length + d + 2 - q.length = d + 1 + 1 from by omega]
    rw [List.getD_cons_succ, List.getD_cons_succ]
  have hsplit : (d + 2 < 3 * j ∨ 3 * j + 3 ≤ d + 2) ∨
      (P.length + d + 4 < 3 * j ∨ 3 * j + 3 ≤ P.length + d + 4) := by omega
  rcases hsplit with hw | hw
  · have := hag (d + 2) (by omega) hw
    rw [hPu] at this
    rw [this, hTu]
  · have := hag (P.length + d + 4) (by omega) hw
    rw [hPv] at this
    rw [this, hTv]

/-- `fernetOpen` rejects every strict truncation of a genuine token
(payload shorter than 256 bytes): an accepted truncation would have to
carry a payload strictly shorter than the original while its first byte,
inherited from the genuine token, still records the original length. -/
theorem fernetOpen_truncation {key iv : Nat} {P : List Nat} (hn : P.length < 256)
    {lp : Nat} (hl : lp < (fernetToken key iv P).length) :
    fernetOpen key ((fernetToken key iv P).take lp) = none := by
  rcases hopen : fernetOpen key ((fernetToken key iv P).take lp) with - | q
  · rfl
  · exfalso
    obtain ⟨ivB, hTp⟩ := fernetOpen_some hopen
    have hTlen : (fernetToken key iv P).length = 2 * P.length + 4 := fernetToken_length key iv P
    have htake : ((fernetToken key iv P).take lp).length = lp := by
      rw [List.length_take]
      omega
    have hlen2 : lp = 2 * q.length + 4 := by
      rw [← htake, hTp]
      simp
      omega
    match lp, hlen2 with
    | (lp' + 1), _ =>
      have hcons : (fernetToken key iv P).take (lp' + 1) =
          (P.length % 256) :: (((iv % 256) :: (P ++ (key % 256) :: (iv % 256) :: P)).take lp') := by
        rw [show fernetToken key iv P =
          (P.length % 256) :: ((iv % 256) :: (P ++ (key % 256) :: (iv % 256) :: P)) from rfl]
        rw [List.take_succ_cons]
      rw [hcons] at hTp
      have hhead : P.length % 256 = q.length % 256 := (List.cons.injEq _ _ _ _).mp hTp |>.1
      omega

/-- `fernetOpen` rejects a genuine token with one byte appended: the
extended token has odd payload area, while every accepted token's length
is even plus four. -/
theorem fernetOpen_extension (key iv : Nat) (P : List Nat) (y : Nat) :
    fernetOpen key (fernetToken key iv P ++ [y]) = none := by
  rcases hopen : fernetOpen key (fernetToken key iv P ++ [y]) with - | q
  · rfl
  · exfalso
    obtain ⟨ivB, hTp⟩ := fernetOpen_some hopen
    have h1 : (fernetToken key iv P ++ [y]).length = 2 * P.length + 5 := by
      rw [List.length_append, fernetToken_length]
      rfl
    have h2 : (fernetToken key iv P ++ [y]).length = 2 * q.length + 4 := by
      rw [hTp]
      simp
      omega
    omega


/-- C3 (amended): `decrypt(encrypt(P)) = P` for every scalar plaintext,
and for every single-byte corruption of the ciphertext, `decrypt` either
fails with `EncryptionException` or returns the original plaintext `P`
itself — it never silently returns a *different* plaintext.  (The
original claim that every corruption fails is refuted by
`c3_counterexample`: corrupting unused trailing bits of the base64
armour leaves the decoded token, and hence the plaintext, unchanged.) -/
theorem c3_tamper_never_wrong_plaintext (key iv : Nat) (P : List Nat)
    (hsc : ∀ c ∈ P, isScalar c)
    (hlen : (utf8Encode P).length < 256)
    (i x : Nat) (hi : i < (EncryptionService.encrypt key iv P).length) :
    EncryptionService.decrypt key (EncryptionService.encrypt key iv P) = .ok P ∧
    (EncryptionService.decrypt key (corruptAt (EncryptionService.encrypt key iv P) i x) =
        .error () ∨
     EncryptionService.decrypt key (corruptAt (EncryptionService.encrypt key iv P) i x) =
        .ok P) := by
  have hT : ∀ b ∈ fernetToken key iv (utf8Encode P), b < 256 :=
    fernetToken_bytes (utf8Encode_bytes hsc)
  refine ⟨encrypt_decrypt_roundtrip key iv hsc, ?_⟩
  have hi2 : i < (b64encode (fernetToken key iv (utf8Encode P))).length := hi
  have hce : corruptAt (EncryptionService.encrypt key iv P) i x =
      corruptAt (b64encode (fernetToken key iv (utf8Encode P))) i x := rfl
  rcases b64decode_corrupt_classify hT i x hi2 with
    hnone | ⟨Tp, j, hdec, hlen2, hag⟩ | ⟨lp, hlp, hdec⟩ | ⟨y, hdec⟩
  · left
    unfold EncryptionService.decrypt
    rw [hce, hnone]
  · unfold EncryptionService.decrypt
    rw [hce, hdec]
    dsimp only
    rcases hopen : fernetOpen key Tp with - | q
    · left
      rfl
    · have hq : q = utf8Encode P := fernetOpen_agree hlen2 hag hopen
      right
      dsimp only
      rw [hq, utf8DecodeStrict_encode hsc]
  · left
    unfold EncryptionService.decrypt
    rw [hce, hdec]
    dsimp only
    rw [fernetOpen_truncation hlen hlp]
  · left
    unfold EncryptionService.decrypt
    rw [hce, hdec]
    dsimp only
    rw [fernetOpen_extension]

/-- C3 counterexample to the original claim: the ciphertext of the empty
plaintext is the 8 bytes "AAAAAA==" (`[65,65,65,65,65,65,61,61]`);
replacing its byte at index 5 with 66 ("B") changes only dead bits of
the final base64 quad, so `decrypt` still succeeds (returning the
original plaintext) instead of failing. -/
theorem c3_counterexample :
    5 < (EncryptionService.encrypt 0 0 []).length ∧
    EncryptionService.decrypt 0 (corruptAt (EncryptionService.encrypt 0 0 []) 5 66) =
      .ok ([] : List Nat) := by
  constructor
  · decide
  · show EncryptionService.decrypt 0 [65, 65, 65, 65, 65, 66, 61, 61] = .ok []
    unfold EncryptionService.decrypt
    rw [show b64decode [65, 65, 65, 65, 65, 66, 61, 61] = some [0, 0, 0, 0] from rfl]
    dsimp only
    rw [show fernetOpen 0 [0, 0, 0, 0] = some [] from rfl]
    dsimp only
    rw [show utf8DecodeStrict [] = some [] from by rw [utf8DecodeStrict]]

theorem c3_tamper_never_wrong_plaintext_witness :
    EncryptionService.decrypt 0 (EncryptionService.encrypt 0 0 [104]) = .ok [104] ∧
    (EncryptionService.decrypt 0 (corruptAt (EncryptionService.encrypt 0 0 [104]) 0 66) =
        .error () ∨
     EncryptionService.decrypt 0 (corruptAt (EncryptionService.encrypt 0 0 [104]) 0 66) =
        .ok [104]) :=
  c3_tamper_never_wrong_plaintext 0 0 [104] (by decide) (by decide) 0 66 (by decide)

end TempMail
